import Mathlib

/-!
Verification of the sec51/twofactor TOTP library (Go) against its
natural-language specification.

Shallow embedding conventions:
* Go byte slices and strings are modelled as `List Nat`, each element a byte
  value below 256 where the source guarantees it.
* Go `int` / `int64` are modelled as `Int` (the build targets 64-bit Go, where
  `int` is 64 bits wide); `uint64` values are modelled as `Nat` together with
  explicit `% 2^64` reductions at the points where Go converts or wraps.
* Go `>>` on signed integers is an arithmetic shift, i.e. floor division by a
  power of two (`Int.fdiv`); Go `/` on integers truncates toward zero
  (`Int.tdiv`); Go `&` with a mask of low bits on a two's-complement value is
  the nonnegative remainder (`Int.emod`).
* `time.Time` is modelled as an `Int` counting nanoseconds since the Unix
  epoch; `Time.Unix()` is floor division by 10^9, and `time.Duration`
  arithmetic is ordinary integer arithmetic on nanoseconds.
* `float64` values reaching `convert.Round` are integers obtained from Go
  integer division; the conversion is exact for magnitudes below 2^53, and the
  rounding arithmetic itself is modelled over `ℚ`.
* External cryptographic primitives (NaCl secretbox, HMAC, bcrypt, SHA-256)
  are abstracted as function parameters; the theorems that need their
  contracts (e.g. that opening a sealed box returns the plaintext) take those
  contracts as hypotheses.
-/

namespace bigendian

/-- Vendor sec51/convert/bigendian ToUint64: the eight big-endian bytes of a
uint64 (convert.go lines 4-15). -/
def toUint64 (n : Nat) : List Nat :=
  [(n >>> 56) &&& 0xFF, (n >>> 48) &&& 0xFF, (n >>> 40) &&& 0xFF,
   (n >>> 32) &&& 0xFF, (n >>> 24) &&& 0xFF, (n >>> 16) &&& 0xFF,
   (n >>> 8) &&& 0xFF, n &&& 0xFF]

/-- Vendor sec51/convert/bigendian FromUint64 (convert.go lines 18-24): the
or-chain of the shifted bytes, exactly as the source writes it. -/
def fromUint64 (data : List Nat) : Nat :=
  (data.getD 7 0) ||| ((data.getD 6 0) <<< 8) ||| ((data.getD 5 0) <<< 16) |||
  ((data.getD 4 0) <<< 24) ||| ((data.getD 3 0) <<< 32) ||| ((data.getD 2 0) <<< 40) |||
  ((data.getD 1 0) <<< 48) ||| ((data.getD 0 0) <<< 56)

/-- One byte of a Go `int`: `byte((n >> k) & 0xFF)` where `>>` is an
arithmetic shift (floor division) and the mask keeps the low eight bits of
the two's-complement representation (nonnegative remainder). -/
def intByte (n : Int) (k : Nat) : Nat :=
  ((Int.fdiv n (2 ^ k)) % 256).toNat

/-- Vendor sec51/convert/bigendian ToInt (convert.go lines 27-34). -/
def toInt (n : Int) : List Nat :=
  [intByte n 24, intByte n 16, intByte n 8, intByte n 0]

/-- The reassembled value of bigendian FromInt as a natural number.  The
source computes `int(data[3]) | int(data[2])<<8 | int(data[1])<<16 |
int(data[0])<<24` on a 64-bit `int`; all operands are nonnegative byte
values, so the Go bitwise-or coincides with the natural-number or-chain. -/
def fromIntNat (data : List Nat) : Nat :=
  (data.getD 3 0) ||| ((data.getD 2 0) <<< 8) |||
  ((data.getD 1 0) <<< 16) ||| ((data.getD 0 0) <<< 24)

/-- Vendor sec51/convert/bigendian FromInt (convert.go lines 37-41).  Note
there is no sign extension: on 64-bit Go the result is always nonnegative. -/
def fromInt (data : List Nat) : Int :=
  (fromIntNat data : Nat)

end bigendian

namespace smallendian

/-- sec51/convert/smallendian ToUint64 (src/unnamed/part_001 lines 4-15):
the eight little-endian bytes of a uint64. -/
def toUint64 (n : Nat) : List Nat :=
  [n &&& 0xFF, (n >>> 8) &&& 0xFF, (n >>> 16) &&& 0xFF, (n >>> 24) &&& 0xFF,
   (n >>> 32) &&& 0xFF, (n >>> 40) &&& 0xFF, (n >>> 48) &&& 0xFF,
   (n >>> 56) &&& 0xFF]

/-- sec51/convert/smallendian FromUint64 (src/unnamed/part_001 lines 18-24). -/
def fromUint64 (data : List Nat) : Nat :=
  (data.getD 0 0) ||| ((data.getD 1 0) <<< 8) ||| ((data.getD 2 0) <<< 16) |||
  ((data.getD 3 0) <<< 24) ||| ((data.getD 4 0) <<< 32) ||| ((data.getD 5 0) <<< 40) |||
  ((data.getD 6 0) <<< 48) ||| ((data.getD 7 0) <<< 56)

/-- sec51/convert/smallendian ToInt (src/unnamed/part_001 lines 26-33):
the four little-endian bytes of the low 32 bits of a Go `int`. -/
def toInt (n : Int) : List Nat :=
  [bigendian.intByte n 0, bigendian.intByte n 8,
   bigendian.intByte n 16, bigendian.intByte n 24]

/-- The reassembled value of smallendian FromInt as a natural number. -/
def fromIntNat (data : List Nat) : Nat :=
  (data.getD 0 0) ||| ((data.getD 1 0) <<< 8) |||
  ((data.getD 2 0) <<< 16) ||| ((data.getD 3 0) <<< 24)

/-- sec51/convert/smallendian FromInt (src/unnamed/part_001 lines 36-41,
equivalently src/unnamed/part_002 lines 30-34 via binary.LittleEndian): a
nonnegative 32-bit value, zero-extended into the 64-bit Go `int`. -/
def fromInt (data : List Nat) : Int :=
  (fromIntNat data : Nat)

end smallendian

/-- Go conversion `uint64(x)` applied to a signed 64-bit value: reduction
modulo 2^64 into the nonnegative representatives. -/
def goUint64OfInt (x : Int) : Nat :=
  (x % (2 ^ 64 : Int)).toNat

/-- Go conversion `int64(u)` applied to a uint64: two's-complement
reinterpretation. -/
def goInt64OfUint64 (u : Nat) : Int :=
  if u < 2 ^ 63 then (u : Int) else (u : Int) - 2 ^ 64

/-- Go conversion `int32(x)` applied to a signed 64-bit value:
two's-complement truncation to 32 bits. -/
def goInt32OfInt (x : Int) : Int :=
  let r := x % (2 ^ 32 : Int)
  if r < 2 ^ 31 then r else r - 2 ^ 32

namespace convert

/-- Vendor sec51/convert Round (common.go lines 8-13): half-away-from-zero
rounding, written exactly as the source composes math.Ceil and math.Floor.
The float64 argument is modelled as an exact rational; every call site in
this development passes an integer below 2^53, for which the Go float64
conversion is exact.  The Go result type is uint64; the conversion of a
negative rounded value is left to the call sites (none performs it). -/
def goRound (n : ℚ) : Int :=
  if n < 0 then ⌈n - 1 / 2⌉ else ⌊n + 1 / 2⌋

end convert

namespace cryptoengine

/-- RE2 Perl character class backslash-s, the pattern compiled by the
cryptoengine whiteSpaceRegEx (src/unnamed/part_003 line 34): tab, newline,
form feed, carriage return and space. -/
def goIsRegexpSpace (c : Char) : Bool :=
  [9, 10, 12, 13, 32].contains c.toNat

/-- Go unicode.IsSpace, the predicate used by strings.TrimSpace: the Unicode
White_Space property (ASCII controls, space, NEL, NBSP and the Unicode space
separators). -/
def goIsUnicodeSpace (c : Char) : Bool :=
  [9, 10, 11, 12, 13, 32, 0x85, 0xA0, 0x1680, 0x2028, 0x2029,
   0x202F, 0x205F, 0x3000].contains c.toNat ||
  (0x2000 ≤ c.toNat && c.toNat ≤ 0x200A)

/-- Hex-digit test of Go net/url ishex. -/
def goIsHex (c : Char) : Bool :=
  ('0' ≤ c && c ≤ '9') || ('a' ≤ c && c ≤ 'f') || ('A' ≤ c && c ≤ 'F')

/-- Hex-digit value of Go net/url unhex. -/
def goUnhex (c : Char) : Nat :=
  if '0' ≤ c && c ≤ '9' then c.toNat - '0'.toNat
  else if 'a' ≤ c && c ≤ 'f' then c.toNat - 'a'.toNat + 10
  else if 'A' ≤ c && c ≤ 'F' then c.toNat - 'A'.toNat + 10
  else 0

/-- Go net/url QueryUnescape: percent-escapes are decoded (a malformed escape
is an error, reported here as `none`), and plus becomes space.  Escaped bytes
at or above 0x80 are modelled as single code points rather than re-assembled
UTF-8 sequences; every input relevant to the claims is ASCII. -/
def queryUnescape : List Char → Option (List Char)
  | [] => some []
  | '%' :: c1 :: c2 :: rest =>
    if goIsHex c1 && goIsHex c2 then
      (queryUnescape rest).map (fun t => Char.ofNat (goUnhex c1 * 16 + goUnhex c2) :: t)
    else
      none
  | '%' :: _ => none
  | '+' :: rest => (queryUnescape rest).map (fun t => ' ' :: t)
  | c :: rest => (queryUnescape rest).map (fun t => c :: t)

/-- Go strings.TrimSpace: drop leading and trailing Unicode white space. -/
def trimSpace (l : List Char) : List Char :=
  ((l.dropWhile goIsUnicodeSpace).reverse.dropWhile goIsUnicodeSpace).reverse

/-- Go strings.ToLower restricted to ASCII (no input in this development
contains a non-ASCII cased letter). -/
def goToLowerChar (c : Char) : Char :=
  if 'A' ≤ c && c ≤ 'Z' then Char.ofNat (c.toNat + 32) else c

/-- Go regexp ReplaceAllLiteralString for a pattern matching single
characters: the scan replaces each leftmost non-overlapping match, hence
each matching character, by the literal replacement. -/
def replaceAllLiteral (p : Char → Bool) (repl : List Char) : List Char → List Char
  | [] => []
  | c :: rest =>
    if p c then repl ++ replaceAllLiteral p repl rest
    else c :: replaceAllLiteral p repl rest

/-- cryptoengine sanitizeIdentifier (src/unnamed/part_003 lines 294-307):
URL-unescape (empty string on error, since the error is discarded), trim
white space, lower-case, then replace white space with underscores. -/
def sanitizeIdentifier (id : List Char) : List Char :=
  let unescaped := (queryUnescape id).getD []
  let trimmed := trimSpace unescaped
  let lowered := trimmed.map goToLowerChar
  let cleaned := replaceAllLiteral goIsRegexpSpace ['_'] lowered
  cleaned

/-- Modelled from the spec: the sanitization pipeline as claim C6 words it,
with each maximal run of consecutive white-space characters replaced by a
single underscore.  The flag records whether the previous character was part
of a white-space run. -/
def collapseRunsAux (p : Char → Bool) : Bool → List Char → List Char
  | _, [] => []
  | prevWS, c :: rest =>
    if p c then
      if prevWS then collapseRunsAux p true rest
      else '_' :: collapseRunsAux p true rest
    else c :: collapseRunsAux p false rest

/-- Modelled from the spec: claim C6's sanitization (URL-unescape, trim,
lower-case, collapse each white-space run to one underscore). -/
def specSanitizeIdentifier (id : List Char) : List Char :=
  let unescaped := (queryUnescape id).getD []
  let trimmed := trimSpace unescaped
  let lowered := trimmed.map goToLowerChar
  collapseRunsAux goIsRegexpSpace false lowered

/-- cryptoengine message (message.go lines 16-20): version, type and
payload text of the inner plaintext record.  The field named Type in the
source is called mtype here because Type is reserved in Lean. -/
structure Message where
  version : Int
  mtype : Int
  text : List Nat
deriving DecidableEq

/-- cryptoengine EncryptedMessage (message.go lines 27-31). -/
structure EncryptedMessage where
  length : Nat
  nonce : List Nat
  data : List Nat
deriving DecidableEq

/-- Error kinds surfaced by the decryption path. -/
inductive CEError where
  | messageParsing
  | messageDecryption
deriving DecidableEq

/-- message.toBytes (message.go lines 48-63): little-endian version and type
words followed by the text bytes. -/
def messageToBytes (m : Message) : List Nat :=
  smallendian.toInt m.version ++ smallendian.toInt m.mtype ++ m.text

/-- cryptoengine encryptedMessageFromBytes (message.go lines 68-104): a
record shorter than 8+24+1 bytes is a parsing error; otherwise the first
eight bytes are the little-endian length field, the next 24 bytes the nonce,
and the remainder the ciphertext. -/
def encryptedMessageFromBytes (data : List Nat) : Option EncryptedMessage :=
  if data.length < 8 + 24 + 1 then none
  else
    some { length := smallendian.fromUint64 (data.take 8),
           nonce := (data.drop 8).take 24,
           data := data.drop 32 }

/-- cryptoengine messageFromBytes (message.go lines 107-142): a plaintext
shorter than 4+4+1 bytes is a parsing error; otherwise the two little-endian
words are version and type and the rest is the text. -/
def messageFromBytes (data : List Nat) : Option Message :=
  if data.length < 4 + 4 + 1 then none
  else
    some { version := smallendian.fromInt (data.take 4),
           mtype := smallendian.fromInt ((data.drop 4).take 4),
           text := data.drop 8 }

/-- CryptoEngine.NewEncryptedMessage (src/unnamed/part_003 lines 352-374)
with the nonce derivation and the secretbox seal abstracted: the nonce is a
parameter and sealF stands for secretbox.Seal under the engine's secret key.
The length field is the ciphertext length plus nonce length plus eight. -/
def NewEncryptedMessage (sealF : List Nat → List Nat) (nonce : List Nat)
    (msg : Message) : EncryptedMessage :=
  let encryptedData := sealF (messageToBytes msg)
  { length := encryptedData.length + nonce.length + 8,
    nonce := nonce,
    data := encryptedData }

/-- EncryptedMessage.ToBytes (message.go lines 151-170): little-endian
length, then nonce, then ciphertext. -/
def encryptedMessageToBytes (m : EncryptedMessage) : List Nat :=
  smallendian.toUint64 m.length ++ m.nonce ++ m.data

/-- CryptoEngine.Decrypt (src/unnamed/part_003 lines 434-456) with
secretbox.Open abstracted as opn (applied to the parsed nonce and
ciphertext; the engine's secret key is part of opn).  The source returns a
nil error even when the inner messageFromBytes fails, so that case is
modelled as ok-none. -/
def Decrypt (opn : List Nat → List Nat → Option (List Nat))
    (encryptedBytes : List Nat) : Except CEError (Option Message) :=
  match encryptedMessageFromBytes encryptedBytes with
  | none => .error .messageParsing
  | some em =>
    match opn em.nonce em.data with
    | none => .error .messageDecryption
    | some plain => .ok (messageFromBytes plain)

end cryptoengine

namespace twofactor

/-- Constant backOffMinutes (totp.go line 29). -/
def backOffMinutes : Int := 5

/-- Constant maxFailures (totp.go line 30). -/
def maxFailures : Int := 3

/-- Nanoseconds per second: the unit of time.Duration and of the modelled
time.Time values. -/
def nsPerSecond : Int := 1000000000

/-- Time.Unix(): whole seconds since the epoch of a nanosecond instant
(time.Time keeps a nonnegative nanosecond part, so this is floor division). -/
def timeUnix (t : Int) : Int :=
  Int.fdiv t nsPerSecond

/-- time.Unix(sec, 0): the instant sec seconds after the epoch. -/
def timeFromUnix (sec : Int) : Int :=
  sec * nsPerSecond

/-- Hash functions supported by the TOTP object (crypto.SHA1, crypto.SHA256,
crypto.SHA512). -/
inductive HashAlgo where
  | sha1
  | sha256
  | sha512
deriving DecidableEq

/-- The Totp struct (totp.go lines 44-55).  Byte-slice and string fields are
byte lists; counter is the eight-byte array; lastVerificationTime is a
nanosecond instant. -/
structure Totp where
  key : List Nat
  counter : List Nat
  digits : Int
  issuer : List Nat
  account : List Nat
  stepSize : Int
  clientOffset : Int
  totalVerificationFailures : Int
  lastVerificationTime : Int
  hashFunction : HashAlgo
deriving DecidableEq

/-- Errors returned by Validate (totp.go lines 36-39 and 149-151). -/
inductive VError where
  | initializationFailed
  | emptyToken
  | lockedDown
  | tokenMismatch
deriving DecidableEq

/-- Totp.getIntCounter (totp.go lines 74-76). -/
def getIntCounter (otp : Totp) : Nat :=
  bigendian.fromUint64 otp.counter

/-- validBackOffTime (totp.go lines 204-207): true when the current time is
strictly after the last verification plus the back-off window. -/
def validBackOffTime (lastVerification now : Int) : Bool :=
  lastVerification + backOffMinutes * 60 * nsPerSecond < now

/-- increment (totp.go lines 227-231): the Go integer division ts/stepSize
truncates toward zero, its value is converted to float64 (exact below 2^53)
and then rounded; since the argument is already an integer the rounding
returns it unchanged. -/
def increment (ts : Int) (stepSize : Int) : Int :=
  convert.goRound ((Int.tdiv ts stepSize : Int) : ℚ)

/-- Modelled from the spec: the time-step value exactly as claim C2 words
it, the half-away-from-zero rounding applied to the exact quotient
t / stepSize (not to its truncation). -/
def specRoundTimeStep (ts : Int) (stepSize : Int) : Int :=
  convert.goRound ((ts : ℚ) / (stepSize : ℚ))

/-- The counter value written by incrementCounter (totp.go lines 219-224)
for a given wall-clock instant and index: the index shifts the clock by
index*stepSize seconds before taking the Unix time.  The uint64 conversion
of the rounded value is toNat (every reachable value is nonnegative). -/
def counterForIndex (now stepSize index : Int) : List Nat :=
  bigendian.toUint64 ((increment (timeUnix (now + index * stepSize * nsPerSecond)) stepSize).toNat)

/-- The token-comparison phase of Validate (totp.go lines 164-199), entered
once the initialization, empty-token and lock-down checks have passed.
H abstracts the composition hex(sha256(token-string)) applied to both the
user code and the candidate tokens; calcT abstracts calculateTOTP, giving the
candidate token at each index.  The three calculateTOTP calls each overwrite
the counter, so the state carries the value of the last call (index 1). -/
def compareTokens (H : List Nat → List Nat) (calcT : Int → List Nat) (now : Int)
    (otp : Totp) (userCode : List Nat) : Totp × Option VError :=
  let userToken := H userCode
  let token0 := H (calcT (-1))
  let token1 := H (calcT 0)
  let token2 := H (calcT 1)
  let o := { otp with counter := counterForIndex now otp.stepSize 1 }
  if token1 = userToken then (o, none)
  else if token0 = userToken then ({ o with clientOffset := -1 }, none)
  else if token2 = userToken then ({ o with clientOffset := 1 }, none)
  else ({ o with totalVerificationFailures := o.totalVerificationFailures + 1,
                 lastVerificationTime := now }, some .tokenMismatch)

/-- Totp.Validate (totp.go lines 142-200): initialization check, empty-token
check, lock-down check with back-off expiry reset, then the three-candidate
comparison. -/
def Validate (H : List Nat → List Nat) (calcT : Int → List Nat) (now : Int)
    (otp : Totp) (userCode : List Nat) : Totp × Option VError :=
  if otp.key = [] then (otp, some .initializationFailed)
  else if userCode = [] then (otp, some .emptyToken)
  else if maxFailures ≤ otp.totalVerificationFailures then
    if ¬ validBackOffTime otp.lastVerificationTime now then (otp, some .lockedDown)
    else compareTokens H calcT now { otp with totalVerificationFailures := 0 } userCode
  else compareTokens H calcT now otp userCode

/-- truncateHash (totp.go lines 266-273): dynamic truncation of RFC 4226.
The uint32 arithmetic cannot overflow (all four masked summands fit in 31
bits), so the natural-number value is exact; the result is the int64 of it. -/
def truncateHash (hmacResult : List Nat) (size : Nat) : Int :=
  let offset := (hmacResult.getD (size - 1) 0) &&& 0xf
  let binCode :=
    (((hmacResult.getD offset 0) &&& 0x7f) <<< 24) |||
    (((hmacResult.getD (offset + 1) 0) &&& 0xff) <<< 16) |||
    (((hmacResult.getD (offset + 2) 0) &&& 0xff) <<< 8) |||
    ((hmacResult.getD (offset + 3) 0) &&& 0xff)
  (binCode : Nat)

/-- math.Pow10 composed with the int64 conversion as calculateToken uses it:
exact for exponents zero through fifteen, and zero for negative exponents
(the float value is then below one). -/
def goPow10 (digits : Int) : Int :=
  if 0 ≤ digits then (10 : Int) ^ digits.toNat else 0

/-- The decimal digit characters of a natural number, most significant
first, as the fmt verb d prints a nonnegative integer. -/
def decimalChars (m : Nat) : List Char :=
  if m = 0 then ['0'] else (Nat.digits 10 m).reverse.map (fun d => Char.ofNat (48 + d))

/-- fmt.Sprintf with a zero-padded width-w decimal verb, applied to the
nonnegative values reaching it in calculateToken. -/
def goSprintfPad0 (width : Nat) (x : Int) : List Char :=
  let s := decimalChars x.toNat
  List.replicate (width - s.length) '0' ++ s

/-- calculateToken (totp.go lines 276-286): hash the counter bytes with the
abstracted HMAC, truncate, reduce modulo 10^digits (Go % truncates toward
zero), convert to int32 and zero-pad to the requested width. -/
def calculateToken (counter : List Nat) (digits : Int)
    (hmacFn : List Nat → List Nat) (hSize : Nat) : List Char :=
  let hashResult := hmacFn counter
  let result := truncateHash hashResult hSize
  let m := goInt32OfInt (Int.tmod result (goPow10 digits))
  goSprintfPad0 digits.toNat m

end twofactor

namespace twofactor

/-- A Go slice expression buffer[s:e] on byte lists. -/
def listSlice (l : List Nat) (s e : Nat) : List Nat :=
  (l.drop s).take (e - s)

/-- The wire code of the hash function written by ToBytes (totp.go lines
462-479): SHA256 is one, SHA512 is two, SHA1 (the default branch) zero. -/
def hashTypeCode : HashAlgo → Int
  | .sha256 => 1
  | .sha512 => 2
  | .sha1 => 0

/-- The hash function restored by TOTPFromBytes (totp.go lines 615-622):
one is SHA256, two is SHA512, anything else SHA1. -/
def hashOfTypeCode (code : Int) : HashAlgo :=
  if code = 1 then .sha256 else if code = 2 then .sha512 else .sha1

/-- The inner plaintext written by ToBytes (totp.go lines 379-479): the
total size, then each field in order, with four-byte big-endian sizes and
integers and eight-byte big-endian counter and timestamp. -/
def serialize (otp : Totp) : List Nat :=
  let keySize := otp.key.length
  let issuerSize := otp.issuer.length
  let accountSize := otp.account.length
  let totalSize := 4 + 4 + keySize + 8 + 4 + 4 + issuerSize + 4 + accountSize
                   + 4 + 4 + 4 + 8 + 4
  bigendian.toInt (totalSize : Nat) ++
  (bigendian.toInt (keySize : Nat) ++
  (otp.key ++
  (bigendian.toUint64 (getIntCounter otp) ++
  (bigendian.toInt otp.digits ++
  (bigendian.toInt (issuerSize : Nat) ++
  (otp.issuer ++
  (bigendian.toInt (accountSize : Nat) ++
  (otp.account ++
  (bigendian.toInt otp.stepSize ++
  (bigendian.toInt otp.clientOffset ++
  (bigendian.toInt otp.totalVerificationFailures ++
  (bigendian.toUint64 (goUint64OfInt (timeUnix otp.lastVerificationTime)) ++
  bigendian.toInt (hashTypeCode otp.hashFunction)))))))))))))

/-- Totp.ToBytes (totp.go lines 372-500): after the initialization check the
inner plaintext is wrapped in a version-zero type-zero message and encrypted
by the crypto engine; sealF and nonce abstract the secretbox seal and the
derived nonce. -/
def ToBytes (sealF : List Nat → List Nat) (nonce : List Nat) (otp : Totp) :
    Option (List Nat) :=
  if otp.key = [] then none
  else
    some (cryptoengine.encryptedMessageToBytes
      (cryptoengine.NewEncryptedMessage sealF nonce
        { version := 0, mtype := 0, text := serialize otp }))

/-- The field-parsing loop of TOTPFromBytes (totp.go lines 539-624), reading
the buffer that follows the four total-size bytes with the running
startOffset/endOffset arithmetic of the source. -/
def parseTotpBuffer (buffer : List Nat) : Totp :=
  let keySize := (bigendian.fromInt (listSlice buffer 0 4)).toNat
  let key := listSlice buffer 4 (4 + keySize)
  let counter := listSlice buffer (4 + keySize) (4 + keySize + 8)
  let digits := bigendian.fromInt
    (listSlice buffer (4 + keySize + 8) (4 + keySize + 8 + 4))
  let issuerSize := (bigendian.fromInt
    (listSlice buffer (4 + keySize + 8 + 4) (4 + keySize + 8 + 4 + 4))).toNat
  let issuer := listSlice buffer (4 + keySize + 8 + 4 + 4)
    (4 + keySize + 8 + 4 + 4 + issuerSize)
  let accountSize := (bigendian.fromInt
    (listSlice buffer (4 + keySize + 8 + 4 + 4 + issuerSize)
      (4 + keySize + 8 + 4 + 4 + issuerSize + 4))).toNat
  let account := listSlice buffer (4 + keySize + 8 + 4 + 4 + issuerSize + 4)
    (4 + keySize + 8 + 4 + 4 + issuerSize + 4 + accountSize)
  let stepSize := bigendian.fromInt
    (listSlice buffer (4 + keySize + 8 + 4 + 4 + issuerSize + 4 + accountSize)
      (4 + keySize + 8 + 4 + 4 + issuerSize + 4 + accountSize + 4))
  let clientOffset := bigendian.fromInt
    (listSlice buffer (4 + keySize + 8 + 4 + 4 + issuerSize + 4 + accountSize + 4)
      (4 + keySize + 8 + 4 + 4 + issuerSize + 4 + accountSize + 4 + 4))
  let totalFailures := bigendian.fromInt
    (listSlice buffer (4 + keySize + 8 + 4 + 4 + issuerSize + 4 + accountSize + 4 + 4)
      (4 + keySize + 8 + 4 + 4 + issuerSize + 4 + accountSize + 4 + 4 + 4))
  let ts := bigendian.fromUint64
    (listSlice buffer (4 + keySize + 8 + 4 + 4 + issuerSize + 4 + accountSize + 4 + 4 + 4)
      (4 + keySize + 8 + 4 + 4 + issuerSize + 4 + accountSize + 4 + 4 + 4 + 8))
  let hashType := bigendian.fromInt
    (listSlice buffer (4 + keySize + 8 + 4 + 4 + issuerSize + 4 + accountSize + 4 + 4 + 4 + 8)
      (4 + keySize + 8 + 4 + 4 + issuerSize + 4 + accountSize + 4 + 4 + 4 + 8 + 4))
  { key := key,
    counter := counter,
    digits := digits,
    issuer := issuer,
    account := account,
    stepSize := stepSize,
    clientOffset := clientOffset,
    totalVerificationFailures := totalFailures,
    lastVerificationTime := timeFromUnix (goInt64OfUint64 ts),
    hashFunction := hashOfTypeCode hashType }

/-- The plaintext-parsing part of TOTPFromBytes (totp.go lines 519-624): the
first four bytes give the total size, the next totalSize-4 bytes are the
field buffer. -/
def parseTotp (data : List Nat) : Totp :=
  let totalSize := (bigendian.fromInt (listSlice data 0 4)).toNat
  parseTotpBuffer (listSlice data 4 totalSize)

/-- TOTPFromBytes (totp.go lines 505-625): decrypt through the crypto engine
(opn abstracts secretbox.Open under the engine of the issuer context), then
parse the plaintext text field.  Error returns, which the caller must not
use, are collapsed to none. -/
def TOTPFromBytes (opn : List Nat → List Nat → Option (List Nat))
    (encryptedMessage : List Nat) : Option Totp :=
  match cryptoengine.Decrypt opn encryptedMessage with
  | .error _ => none
  | .ok none => none
  | .ok (some msg) => some (parseTotp msg.text)

end twofactor

namespace recovery

/-- The index of the first stored hash matching the input, exactly as the
loop of UseRecoveryCode (recovery.go lines 90-96) finds it; cmp abstracts a
successful bcrypt.CompareHashAndPassword. -/
def firstMatchIdx (cmp : String → String → Bool) (inputCode : String) :
    List String → Option Nat
  | [] => none
  | c :: rest =>
    if cmp c inputCode then some 0
    else (firstMatchIdx cmp inputCode rest).map (· + 1)

/-- The copy loop of UseRecoveryCode (recovery.go lines 102-113): every
element except the one at the used index, order preserved. -/
def removeAt : List String → Nat → List String
  | [], _ => []
  | _ :: rest, 0 => rest
  | c :: rest, n + 1 => c :: removeAt rest n

/-- UseRecoveryCode (recovery.go lines 86-115): nil and false when no stored
hash matches, otherwise the list without the first match and true. -/
def UseRecoveryCode (cmp : String → String → Bool) (codes : List String)
    (inputCode : String) : Option (List String) × Bool :=
  match firstMatchIdx cmp inputCode codes with
  | none => (none, false)
  | some use => (some (removeAt codes use), true)

end recovery

namespace twofactor

/-- A small concrete TOTP state used by the concrete witnesses. -/
def sampleTotp : Totp :=
  { key := [1], counter := [0, 0, 0, 0, 0, 0, 0, 0], digits := 6,
    issuer := [], account := [], stepSize := 30, clientOffset := 0,
    totalVerificationFailures := 0, lastVerificationTime := 0,
    hashFunction := .sha1 }

/-- A second concrete TOTP state (two failures on record, a last
verification time of five nanoseconds) used by the frame-property witness. -/
def sampleTotp2 : Totp :=
  { sampleTotp with totalVerificationFailures := 2, lastVerificationTime := 5 }

/-- Concrete stand-in for the hex-of-sha256 comparison function in the
witnesses: the identity on byte lists. -/
def idHash : List Nat → List Nat := fun b => b

/-- Concrete candidate-token function for the witnesses: distinct tokens at
the three indices. -/
def calcFix : Int → List Nat := fun i =>
  if i = 0 then [1] else if i = -1 then [2] else [3]

/-- Concrete 24-byte nonce for the witnesses. -/
def nonceFix : List Nat := List.replicate 24 0

/-- Concrete seal function for the witnesses (identity ciphertext). -/
def sealFix : List Nat → List Nat := fun m => m

/-- Concrete open function for the witnesses, inverse of sealFix. -/
def opnFix : List Nat → List Nat → Option (List Nat) := fun _ c => some c

end twofactor

theorem and_255_eq_mod (x : Nat) : x &&& 255 = x % 256 := by
  have h := Nat.and_pow_two_sub_one_eq_mod x 8
  norm_num at h
  exact h

theorem and_255_lt (x : Nat) : x &&& 255 < 256 := by
  rw [and_255_eq_mod]
  omega

theorem lor_shl_eq_add {acc : Nat} (d k : Nat) (h : acc < 2 ^ k) :
    acc ||| (d <<< k) = acc + d * 2 ^ k := by
  have h2 := (Nat.mul_add_lt_is_or h d).symm
  rw [Nat.shiftLeft_eq, Nat.lor_comm, Nat.mul_comm d (2 ^ k), h2]
  omega

theorem fromUint64_toUint64 (n : Nat) (h : n < 2 ^ 64) :
    bigendian.fromUint64 (bigendian.toUint64 n) = n := by
  have e : bigendian.fromUint64 (bigendian.toUint64 n) =
      (n &&& 255) ||| (((n >>> 8) &&& 255) <<< 8) |||
      (((n >>> 16) &&& 255) <<< 16) ||| (((n >>> 24) &&& 255) <<< 24) |||
      (((n >>> 32) &&& 255) <<< 32) ||| (((n >>> 40) &&& 255) <<< 40) |||
      (((n >>> 48) &&& 255) <<< 48) ||| (((n >>> 56) &&& 255) <<< 56) := rfl
  rw [e]
  simp only [Nat.shiftRight_eq_div_pow, and_255_eq_mod]
  norm_num
  rw [lor_shl_eq_add _ 8 (by omega)]
  rw [lor_shl_eq_add _ 16 (by omega)]
  rw [lor_shl_eq_add _ 24 (by omega)]
  rw [lor_shl_eq_add _ 32 (by omega)]
  rw [lor_shl_eq_add _ 40 (by omega)]
  rw [lor_shl_eq_add _ 48 (by omega)]
  rw [lor_shl_eq_add _ 56 (by omega)]
  norm_num
  omega

theorem smallendian_fromUint64_toUint64 (n : Nat) (h : n < 2 ^ 64) :
    smallendian.fromUint64 (smallendian.toUint64 n) = n := by
  have e : smallendian.fromUint64 (smallendian.toUint64 n) =
      bigendian.fromUint64 (bigendian.toUint64 n) := rfl
  rw [e, fromUint64_toUint64 n h]

theorem fromUint64_lt (data : List Nat) (hb : ∀ i, data.getD i 0 < 256) :
    bigendian.fromUint64 data < 2 ^ 64 := by
  unfold bigendian.fromUint64
  have sh : ∀ i k, k + 8 ≤ 64 → (data.getD i 0) <<< k < 2 ^ 64 := by
    intro i k hk
    rw [Nat.shiftLeft_eq]
    calc data.getD i 0 * 2 ^ k < 256 * 2 ^ k :=
          (Nat.mul_lt_mul_right (Nat.two_pow_pos k)).mpr (hb i)
      _ = 2 ^ (k + 8) := by rw [Nat.pow_add]; ring
      _ ≤ 2 ^ 64 := Nat.pow_le_pow_right (by norm_num) hk
  have h0 : data.getD 7 0 < 2 ^ 64 := lt_trans (hb 7) (by norm_num)
  refine Nat.or_lt_two_pow ?_ (sh 0 56 (by norm_num))
  refine Nat.or_lt_two_pow ?_ (sh 1 48 (by norm_num))
  refine Nat.or_lt_two_pow ?_ (sh 2 40 (by norm_num))
  refine Nat.or_lt_two_pow ?_ (sh 3 32 (by norm_num))
  refine Nat.or_lt_two_pow ?_ (sh 4 24 (by norm_num))
  refine Nat.or_lt_two_pow ?_ (sh 5 16 (by norm_num))
  refine Nat.or_lt_two_pow ?_ (sh 6 8 (by norm_num))
  exact h0

theorem intByte_lt (n : Int) (k : Nat) : bigendian.intByte n k < 256 := by
  unfold bigendian.intByte
  have h1 := Int.emod_nonneg (Int.fdiv n (2 ^ k)) (by norm_num : (256 : Int) ≠ 0)
  have h2 := Int.emod_lt_of_pos (Int.fdiv n (2 ^ k)) (by norm_num : (0 : Int) < 256)
  omega

theorem intByte_natCast (m : Nat) (k : Nat) :
    bigendian.intByte (m : Int) k = m / 2 ^ k % 256 := by
  unfold bigendian.intByte
  have hpow : ((2 : Int) ^ k) = ((2 ^ k : Nat) : Int) := by push_cast; ring
  rw [hpow, Int.fdiv_eq_ediv _ (by positivity)]
  rw [← Int.ofNat_ediv]
  rw [show ((256 : Int)) = ((256 : Nat) : Int) from rfl, ← Int.ofNat_emod]
  rw [Int.toNat_natCast]

theorem fromInt_toInt_nonneg (i : Int) (h0 : 0 ≤ i) (h1 : i < 2 ^ 32) :
    bigendian.fromInt (bigendian.toInt i) = i := by
  obtain ⟨m, rfl⟩ := Int.eq_ofNat_of_zero_le h0
  have hm : m < 2 ^ 32 := by exact_mod_cast h1
  have e : bigendian.fromIntNat (bigendian.toInt (m : Int)) =
      bigendian.intByte (m : Int) 0 ||| ((bigendian.intByte (m : Int) 8) <<< 8) |||
      ((bigendian.intByte (m : Int) 16) <<< 16) |||
      ((bigendian.intByte (m : Int) 24) <<< 24) := rfl
  unfold bigendian.fromInt
  rw [e]
  simp only [intByte_natCast]
  norm_num
  rw [lor_shl_eq_add _ 8 (by omega)]
  rw [lor_shl_eq_add _ 16 (by omega)]
  rw [lor_shl_eq_add _ 24 (by omega)]
  norm_num
  omega

theorem smallendian_fromInt_toInt_nonneg (i : Int) (h0 : 0 ≤ i) (h1 : i < 2 ^ 32) :
    smallendian.fromInt (smallendian.toInt i) = i := by
  have e : smallendian.fromInt (smallendian.toInt i) =
      bigendian.fromInt (bigendian.toInt i) := rfl
  rw [e, fromInt_toInt_nonneg i h0 h1]

/-- C4, counterexample: decoding the encoding of the signed 32-bit value -1
is not the identity in either endianness.  On 64-bit Go, FromInt reassembles
the four bytes without sign extension, so -1 comes back as 4294967295. -/
theorem c4_counterexample :
    bigendian.fromInt (bigendian.toInt (-1)) = 4294967295 ∧
    smallendian.fromInt (smallendian.toInt (-1)) = 4294967295 ∧
    bigendian.fromInt (bigendian.toInt (-1)) ≠ -1 ∧
    smallendian.fromInt (smallendian.toInt (-1)) ≠ -1 := by
  refine ⟨by decide, by decide, ?_, ?_⟩ <;> decide

/-- C4 (amended): decoding the encoding is the identity for every unsigned
64-bit integer in both endiannesses, and for every NONNEGATIVE signed 32-bit
integer in both endiannesses; for negative 32-bit inputs the 64-bit Go int
reassembly loses the sign (see the counterexample). -/
theorem c4_endian_roundtrip :
    (∀ u : Nat, u < 2 ^ 64 →
       bigendian.fromUint64 (bigendian.toUint64 u) = u ∧
       smallendian.fromUint64 (smallendian.toUint64 u) = u) ∧
    (∀ i : Int, 0 ≤ i → i < 2 ^ 31 →
       bigendian.fromInt (bigendian.toInt i) = i ∧
       smallendian.fromInt (smallendian.toInt i) = i) := by
  constructor
  · intro u hu
    exact ⟨fromUint64_toUint64 u hu, smallendian_fromUint64_toUint64 u hu⟩
  · intro i h0 h1
    have h32 : i < 2 ^ 32 := lt_trans h1 (by norm_num)
    exact ⟨fromInt_toInt_nonneg i h0 h32, smallendian_fromInt_toInt_nonneg i h0 h32⟩

/-- C4, witness: the round trips evaluated at the test values of
conversions_test.go (2984983220) and at seven. -/
theorem c4_endian_roundtrip_witness :
    bigendian.fromUint64 (bigendian.toUint64 2984983220) = 2984983220 ∧
    smallendian.fromInt (smallendian.toInt 7) = 7 :=
  ⟨(c4_endian_roundtrip.1 2984983220 (by norm_num)).1,
   (c4_endian_roundtrip.2 7 (by norm_num) (by norm_num)).2⟩

/-- C2, counterexample: at UNIX time 45 with step size 30 the code's time
step is 1 (the Go integer division truncates before Round ever runs), while
the claimed half-away-from-zero rounding of 45/30 = 1.5 is 2.  The exact
halfway point rounds DOWN, not up. -/
theorem c2_counterexample :
    twofactor.increment 45 30 = 1 ∧
    twofactor.specRoundTimeStep 45 30 = 2 ∧
    twofactor.increment 45 30 ≠ twofactor.specRoundTimeStep 45 30 := by
  have h1 : twofactor.increment 45 30 = 1 := by
    show convert.goRound ((Int.tdiv 45 30 : Int) : ℚ) = 1
    have ht : Int.tdiv 45 30 = 1 := by decide
    rw [ht]
    unfold convert.goRound
    norm_num
  have h2 : twofactor.specRoundTimeStep 45 30 = 2 := by
    unfold twofactor.specRoundTimeStep convert.goRound
    norm_num
  exact ⟨h1, h2, by rw [h1, h2]; decide⟩

/-- C2 (amended): for every nonnegative UNIX time and positive step size the
time-step value computed by increment equals the TRUNCATED quotient
ts / stepSize (the floor, for nonnegative times): the source divides in
integer arithmetic first, so Round receives an integer and returns it
unchanged, and a time exactly halfway between two multiples of stepSize
rounds down.  (The model of the float64 detour is exact below 2^53.) -/
theorem c2_increment_truncates (ts stepSize : Int) (hts : 0 ≤ ts)
    (hstep : 0 < stepSize) :
    twofactor.increment ts stepSize = Int.tdiv ts stepSize := by
  unfold twofactor.increment convert.goRound
  have hq : 0 ≤ Int.tdiv ts stepSize := Int.tdiv_nonneg hts (le_of_lt hstep)
  rw [if_neg (by exact_mod_cast Int.not_lt.mpr hq)]
  rw [Int.floor_int_add]
  norm_num

/-- C2, witness: the spec's own increment test vector,
increment(1438601387, 30), evaluated through the amended theorem; the value
is the truncation 47953379, not the rounding 47953380. -/
theorem c2_increment_truncates_witness :
    twofactor.increment 1438601387 30 = Int.tdiv 1438601387 30 ∧
    Int.tdiv 1438601387 30 = 47953379 :=
  ⟨c2_increment_truncates 1438601387 30 (by norm_num) (by norm_num), by decide⟩

theorem shiftLeft_lt_pow {y : Nat} (a k : Nat) (h : y < 2 ^ a) :
    y <<< k < 2 ^ (a + k) := by
  rw [Nat.shiftLeft_eq, Nat.pow_add]
  exact (Nat.mul_lt_mul_right (Nat.two_pow_pos k)).mpr h

theorem truncateHash_bounds (hmacResult : List Nat) (size : Nat) :
    0 ≤ twofactor.truncateHash hmacResult size ∧
    twofactor.truncateHash hmacResult size < 2 ^ 31 := by
  have he : twofactor.truncateHash hmacResult size =
      ((((hmacResult.getD (hmacResult.getD (size - 1) 0 &&& 15) 0 &&& 127) <<< 24) |||
        ((hmacResult.getD ((hmacResult.getD (size - 1) 0 &&& 15) + 1) 0 &&& 255) <<< 16) |||
        ((hmacResult.getD ((hmacResult.getD (size - 1) 0 &&& 15) + 2) 0 &&& 255) <<< 8) |||
        (hmacResult.getD ((hmacResult.getD (size - 1) 0 &&& 15) + 3) 0 &&& 255) : Nat) : Int) :=
    rfl
  rw [he]
  constructor
  · exact Int.natCast_nonneg _
  · have h0 : (hmacResult.getD (hmacResult.getD (size - 1) 0 &&& 15) 0 &&& 127) <<< 24
        < 2 ^ 31 := by
      have ha := Nat.and_lt_two_pow
        (hmacResult.getD (hmacResult.getD (size - 1) 0 &&& 15) 0)
        (show (127 : Nat) < 2 ^ 7 by norm_num)
      simpa using shiftLeft_lt_pow 7 24 ha
    have h1 : ((hmacResult.getD ((hmacResult.getD (size - 1) 0 &&& 15) + 1) 0 &&& 255) <<< 16)
        < 2 ^ 31 := by
      have := shiftLeft_lt_pow 8 16
        (and_255_lt (hmacResult.getD ((hmacResult.getD (size - 1) 0 &&& 15) + 1) 0))
      calc _ < 2 ^ (8 + 16) := this
        _ < 2 ^ 31 := by norm_num
    have h2 : ((hmacResult.getD ((hmacResult.getD (size - 1) 0 &&& 15) + 2) 0 &&& 255) <<< 8)
        < 2 ^ 31 := by
      have := shiftLeft_lt_pow 8 8
        (and_255_lt (hmacResult.getD ((hmacResult.getD (size - 1) 0 &&& 15) + 2) 0))
      calc _ < 2 ^ (8 + 8) := this
        _ < 2 ^ 31 := by norm_num
    have h3 : (hmacResult.getD ((hmacResult.getD (size - 1) 0 &&& 15) + 3) 0 &&& 255)
        < 2 ^ 31 := by
      calc _ < 256 := and_255_lt _
        _ < 2 ^ 31 := by norm_num
    exact_mod_cast Nat.or_lt_two_pow (Nat.or_lt_two_pow (Nat.or_lt_two_pow h0 h1) h2) h3

theorem goInt32OfInt_id (x : Int) (h0 : 0 ≤ x) (h1 : x < 2 ^ 31) :
    goInt32OfInt x = x := by
  unfold goInt32OfInt
  have he : x % (2 ^ 32 : Int) = x := Int.emod_eq_of_lt h0 (by omega)
  simp only [he]
  rw [if_pos h1]

theorem decimalChars_length_le (m w : Nat) (hm : m < 10 ^ w) (hw : 1 ≤ w) :
    (twofactor.decimalChars m).length ≤ w := by
  unfold twofactor.decimalChars
  by_cases h0 : m = 0
  · simp [h0, hw]
  · rw [if_neg h0]
    rw [List.length_map, List.length_reverse]
    rw [Nat.digits_len 10 m (by norm_num) h0]
    have := (Nat.lt_pow_iff_log_lt (by norm_num : 1 < 10) h0).mp hm
    omega

/-- C10: for every HMAC result, truncateHash masks the top bit of the four
extracted bytes and therefore lands in the interval from 0 up to 2^31, and
for digits six, seven or eight calculateToken always produces a token of
exactly that many characters (left-zero-padded, never longer). -/
theorem c10_truncate_and_width :
    (∀ hmacResult : List Nat, ∀ size : Nat,
        19 ≤ hmacResult.length → size = hmacResult.length →
        0 ≤ twofactor.truncateHash hmacResult size ∧
        twofactor.truncateHash hmacResult size < 2 ^ 31) ∧
    (∀ counter : List Nat, ∀ digits : Int,
        ∀ hmacFn : List Nat → List Nat, ∀ hSize : Nat,
        (digits = 6 ∨ digits = 7 ∨ digits = 8) →
        19 ≤ (hmacFn counter).length → hSize = (hmacFn counter).length →
        (twofactor.calculateToken counter digits hmacFn hSize).length
          = digits.toNat) := by
  constructor
  · intro hmacResult size _ _
    exact truncateHash_bounds hmacResult size
  · intro counter digits hmacFn hSize hd _ _
    show (twofactor.goSprintfPad0 digits.toNat
      (goInt32OfInt (Int.tmod (twofactor.truncateHash (hmacFn counter) hSize)
        (twofactor.goPow10 digits)))).length = digits.toNat
    obtain ⟨hres0, hres1⟩ := truncateHash_bounds (hmacFn counter) hSize
    have hdpos : 0 ≤ digits := by rcases hd with h | h | h <;> simp [h]
    have hpow : twofactor.goPow10 digits = (10 : Int) ^ digits.toNat := by
      unfold twofactor.goPow10
      rw [if_pos hdpos]
    have hpowpos : 0 < twofactor.goPow10 digits := by
      rw [hpow]; positivity
    have hm0 : 0 ≤ Int.tmod (twofactor.truncateHash (hmacFn counter) hSize)
        (twofactor.goPow10 digits) := Int.tmod_nonneg _ hres0
    have hm1 : Int.tmod (twofactor.truncateHash (hmacFn counter) hSize)
        (twofactor.goPow10 digits) < twofactor.goPow10 digits :=
      Int.tmod_lt_of_pos _ hpowpos
    have hlt31 : twofactor.goPow10 digits ≤ 2 ^ 31 := by
      rw [hpow]
      rcases hd with h | h | h <;> rw [h] <;> decide
    rw [goInt32OfInt_id _ hm0 (lt_of_lt_of_le hm1 hlt31)]
    show (List.replicate (digits.toNat - (twofactor.decimalChars _).length) '0' ++
      twofactor.decimalChars _).length = digits.toNat
    rw [List.length_append, List.length_replicate]
    have hnat : (Int.tmod (twofactor.truncateHash (hmacFn counter) hSize)
        (twofactor.goPow10 digits)).toNat < 10 ^ digits.toNat := by
      have hq : Int.tmod (twofactor.truncateHash (hmacFn counter) hSize)
          (twofactor.goPow10 digits) < (10 : Int) ^ digits.toNat := by
        rw [← hpow]; exact hm1
      have hcast : ((10 : Int) ^ digits.toNat) = ((10 ^ digits.toNat : Nat) : Int) := by
        push_cast; ring
      rw [hcast] at hq
      omega
    have hwle := decimalChars_length_le _ digits.toNat hnat
      (by rcases hd with h | h | h <;> simp [h])
    omega

/-- C10, witness: the token width at a concrete 20-byte HMAC output and six
digits. -/
theorem c10_truncate_and_width_witness :
    (twofactor.calculateToken [0] 6 (fun _ => List.replicate 20 7) 20).length
      = (6 : Int).toNat :=
  c10_truncate_and_width.2 [0] 6 (fun _ => List.replicate 20 7) 20
    (by norm_num) (by simp) (by simp)

theorem firstMatchIdx_none_iff (cmp : String → String → Bool) (inp : String)
    (codes : List String) :
    recovery.firstMatchIdx cmp inp codes = none ↔
      ∀ c ∈ codes, cmp c inp = false := by
  induction codes with
  | nil => simp [recovery.firstMatchIdx]
  | cons c rest ih =>
    by_cases hc : cmp c inp = true
    · simp [recovery.firstMatchIdx, hc]
    · rw [Bool.not_eq_true] at hc
      simp [recovery.firstMatchIdx, hc, ih]

theorem firstMatchIdx_some (cmp : String → String → Bool) (inp : String) :
    ∀ (codes : List String) (i : Nat),
      recovery.firstMatchIdx cmp inp codes = some i →
      i < codes.length ∧ cmp (codes.getD i "") inp = true ∧
        ∀ j, j < i → cmp (codes.getD j "") inp = false := by
  intro codes
  induction codes with
  | nil => intro i h; simp [recovery.firstMatchIdx] at h
  | cons c rest ih =>
    intro i h
    by_cases hc : cmp c inp = true
    · simp [recovery.firstMatchIdx, hc] at h
      subst h
      exact ⟨by simp, by simpa using hc, by omega⟩
    · rw [Bool.not_eq_true] at hc
      simp [recovery.firstMatchIdx, hc] at h
      obtain ⟨j, hj, rfl⟩ := h
      obtain ⟨hlen, hmatch, hmin⟩ := ih j hj
      refine ⟨by simpa using hlen, by simpa using hmatch, ?_⟩
      intro k hk
      cases k with
      | zero => simpa using hc
      | succ m => simpa using hmin m (by omega)

theorem removeAt_eq : ∀ (codes : List String) (i : Nat),
    recovery.removeAt codes i = codes.take i ++ codes.drop (i + 1) := by
  intro codes
  induction codes with
  | nil => intro i; simp [recovery.removeAt]
  | cons c rest ih =>
    intro i
    cases i with
    | zero => simp [recovery.removeAt]
    | succ n => simp [recovery.removeAt, ih n]

theorem useRecoveryCode_single_use (cmp : String → String → Bool) (inp : String) :
    ∀ codes : List String, codes.countP (fun c => cmp c inp) = 1 →
      ∃ h', recovery.UseRecoveryCode cmp codes inp = (some h', true) ∧
        recovery.UseRecoveryCode cmp h' inp = (none, false) := by
  intro codes
  induction codes with
  | nil => intro h; simp at h
  | cons c rest ih =>
    intro h
    rw [List.countP_cons] at h
    by_cases hc : cmp c inp = true
    · have hall : ∀ x ∈ rest, cmp x inp = false := by
        rw [hc] at h; simp at h; exact h
      refine ⟨rest, ?_, ?_⟩
      · unfold recovery.UseRecoveryCode
        simp [recovery.firstMatchIdx, hc, recovery.removeAt]
      · unfold recovery.UseRecoveryCode
        rw [(firstMatchIdx_none_iff cmp inp rest).mpr hall]
    · rw [Bool.not_eq_true] at hc
      have hrest : rest.countP (fun c => cmp c inp) = 1 := by
        rw [hc] at h; simp at h; exact h
      obtain ⟨h'', e1, e2⟩ := ih hrest
      have hfm : ∃ j, recovery.firstMatchIdx cmp inp rest = some j ∧
          h'' = recovery.removeAt rest j := by
        unfold recovery.UseRecoveryCode at e1
        cases hj : recovery.firstMatchIdx cmp inp rest with
        | none => rw [hj] at e1; simp at e1
        | some j => rw [hj] at e1; simp at e1; exact ⟨j, rfl, e1.symm⟩
      obtain ⟨j, hj, rfl⟩ := hfm
      have hfm2 : recovery.firstMatchIdx cmp inp (recovery.removeAt rest j) = none := by
        unfold recovery.UseRecoveryCode at e2
        cases hk : recovery.firstMatchIdx cmp inp (recovery.removeAt rest j) with
        | none => rfl
        | some k => rw [hk] at e2; simp at e2
      refine ⟨c :: recovery.removeAt rest j, ?_, ?_⟩
      · unfold recovery.UseRecoveryCode
        simp [recovery.firstMatchIdx, hc, hj, recovery.removeAt]
      · unfold recovery.UseRecoveryCode
        simp [recovery.firstMatchIdx, hc, hfm2]

/-- C7: UseRecoveryCode removes exactly the first bcrypt-matching element,
preserving the order of the rest (so the result is one element shorter);
with no matching element it returns nil and false; and when exactly one
element matches, a second call with the same input finds nothing.  The
bcrypt comparison is abstracted by cmp. -/
theorem c7_use_recovery_code (cmp : String → String → Bool)
    (codes : List String) (inputCode : String) :
    ((∃ c ∈ codes, cmp c inputCode = true) →
      ∃ i, recovery.firstMatchIdx cmp inputCode codes = some i ∧
        (∀ j, j < i → cmp (codes.getD j "") inputCode = false) ∧
        recovery.UseRecoveryCode cmp codes inputCode =
          (some (codes.take i ++ codes.drop (i + 1)), true) ∧
        (codes.take i ++ codes.drop (i + 1)).length = codes.length - 1) ∧
    ((∀ c ∈ codes, cmp c inputCode = false) →
      recovery.UseRecoveryCode cmp codes inputCode = (none, false)) ∧
    (codes.countP (fun c => cmp c inputCode) = 1 →
      ∃ h', recovery.UseRecoveryCode cmp codes inputCode = (some h', true) ∧
        recovery.UseRecoveryCode cmp h' inputCode = (none, false)) := by
  refine ⟨?_, ?_, useRecoveryCode_single_use cmp inputCode codes⟩
  · intro hex
    cases hfm : recovery.firstMatchIdx cmp inputCode codes with
    | none =>
      obtain ⟨c, hc, hcc⟩ := hex
      have := (firstMatchIdx_none_iff cmp inputCode codes).mp hfm c hc
      rw [hcc] at this
      cases this
    | some i =>
      obtain ⟨hlen, _, hmin⟩ := firstMatchIdx_some cmp inputCode codes i hfm
      refine ⟨i, rfl, hmin, ?_, ?_⟩
      · simp [recovery.UseRecoveryCode, hfm, removeAt_eq]
      · rw [List.length_append, List.length_take, List.length_drop]
        omega
  · intro hall
    unfold recovery.UseRecoveryCode
    rw [(firstMatchIdx_none_iff cmp inputCode codes).mpr hall]

/-- C7, witness: consuming the middle element of a three-element list with
string-equality as the comparison, then failing on a second use. -/
theorem c7_use_recovery_code_witness :
    ∃ h', recovery.UseRecoveryCode (fun c s => c == s) ["a", "b", "c"] "b"
      = (some h', true) ∧
      recovery.UseRecoveryCode (fun c s => c == s) h' "b" = (none, false) :=
  (c7_use_recovery_code (fun c s => c == s) ["a", "b", "c"] "b").2.2 (by decide)

/-- C8: two wire records of length at least 33 that differ only in their
first eight bytes (the length field) decrypt identically, for every opening
function: the parsed length field is never checked against the data size
and never reaches the secretbox open call. -/
theorem c8_length_field_ignored (opn : List Nat → List Nat → Option (List Nat))
    (b1 b2 : List Nat) (h1 : 33 ≤ b1.length) (h2 : 33 ≤ b2.length)
    (hsuf : b1.drop 8 = b2.drop 8) :
    cryptoengine.Decrypt opn b1 = cryptoengine.Decrypt opn b2 := by
  have hn : (b1.drop 8).take 24 = (b2.drop 8).take 24 := by rw [hsuf]
  have hd : b1.drop 32 = b2.drop 32 := by
    have e1 : (b1.drop 8).drop 24 = b1.drop 32 := by
      rw [List.drop_drop]
    have e2 : (b2.drop 8).drop 24 = b2.drop 32 := by
      rw [List.drop_drop]
    rw [← e1, ← e2, hsuf]
  unfold cryptoengine.Decrypt
  unfold cryptoengine.encryptedMessageFromBytes
  rw [if_neg (by omega), if_neg (by omega), hn, hd]

/-- C8, witness: a corrupted length field (first byte flipped from 0 to 1)
leaves the decryption result unchanged on a concrete 33-byte record. -/
theorem c8_length_field_ignored_witness :
    cryptoengine.Decrypt twofactor.opnFix (List.replicate 33 0) =
      cryptoengine.Decrypt twofactor.opnFix (1 :: List.replicate 32 0) :=
  c8_length_field_ignored twofactor.opnFix (List.replicate 33 0)
    (1 :: List.replicate 32 0) (by simp) (by simp) (by decide)

theorem replaceAllLiteral_singleton (p : Char → Bool) (r : Char) :
    ∀ l : List Char, cryptoengine.replaceAllLiteral p [r] l
      = l.map (fun c => if p c then r else c) := by
  intro l
  induction l with
  | nil => rfl
  | cons c rest ih =>
    unfold cryptoengine.replaceAllLiteral
    by_cases hc : p c <;> simp [hc, ih]

/-- C6 (amended): the sanitized crypto-engine context equals URL-unescaping
(empty on a malformed escape), trimming, lower-casing and then replacing
EACH white-space character (the regexp backslash-s class) with one
underscore; runs are not collapsed, so two adjacent white-space characters
yield two underscores. -/
theorem c6_sanitize_per_char (id : List Char) :
    cryptoengine.sanitizeIdentifier id =
      ((cryptoengine.trimSpace ((cryptoengine.queryUnescape id).getD [])).map
        cryptoengine.goToLowerChar).map
        (fun c => if cryptoengine.goIsRegexpSpace c then '_' else c) := by
  show cryptoengine.replaceAllLiteral cryptoengine.goIsRegexpSpace ['_']
    ((cryptoengine.trimSpace ((cryptoengine.queryUnescape id).getD [])).map
      cryptoengine.goToLowerChar) = _
  rw [replaceAllLiteral_singleton]

/-- C6, counterexample: the input with two adjacent spaces sanitizes to two
underscores, not to the single underscore the run-collapsing reading of the
spec predicts. -/
theorem c6_counterexample :
    cryptoengine.sanitizeIdentifier ("a  b".data) = "a__b".data ∧
    cryptoengine.specSanitizeIdentifier ("a  b".data) = "a_b".data ∧
    cryptoengine.sanitizeIdentifier ("a  b".data) ≠
      cryptoengine.specSanitizeIdentifier ("a  b".data) := by
  exact ⟨by decide, by decide, by decide⟩

/-- C3, counterexample: with three failures on record and the current time
EXACTLY five minutes after the last verification, Validate still returns
LockedDown (time.After is strict), although now minus lastVerificationTime
is not less than five minutes, so the claim's "otherwise" branch promised a
reset and a normal comparison. -/
theorem c3_counterexample :
    twofactor.Validate twofactor.idHash twofactor.calcFix 300000000000
      { twofactor.sampleTotp with totalVerificationFailures := 3 } [1]
      = ({ twofactor.sampleTotp with totalVerificationFailures := 3 },
         some twofactor.VError.lockedDown) ∧
    ¬ ((300000000000 : Int) -
        ({ twofactor.sampleTotp with totalVerificationFailures := 3 }
          : twofactor.Totp).lastVerificationTime
        < 300 * twofactor.nsPerSecond) := by
  exact ⟨by decide, by decide⟩

/-- C3 (amended): with at least maxFailures failures and a non-empty user
code on an initialized state, Validate returns LockedDown and leaves the
state untouched whenever now is AT MOST lastVerificationTime plus five
minutes (the boundary instant still locks, because time.After is strict),
for every hash and candidate function (no token is computed or compared);
strictly after that window it resets totalVerificationFailures to zero and
proceeds with the normal token comparison. -/
theorem c3_lockdown (H : List Nat → List Nat) (calcT : Int → List Nat)
    (now : Int) (otp : twofactor.Totp) (userCode : List Nat)
    (hkey : otp.key ≠ []) (hcode : userCode ≠ [])
    (hfail : twofactor.maxFailures ≤ otp.totalVerificationFailures) :
    (now ≤ otp.lastVerificationTime
        + twofactor.backOffMinutes * 60 * twofactor.nsPerSecond →
      twofactor.Validate H calcT now otp userCode
        = (otp, some twofactor.VError.lockedDown)) ∧
    (otp.lastVerificationTime
        + twofactor.backOffMinutes * 60 * twofactor.nsPerSecond < now →
      twofactor.Validate H calcT now otp userCode
        = twofactor.compareTokens H calcT now
            { otp with totalVerificationFailures := 0 } userCode) := by
  constructor
  · intro hle
    have hb : twofactor.validBackOffTime otp.lastVerificationTime now = false := by
      unfold twofactor.validBackOffTime
      exact decide_eq_false (by omega)
    unfold twofactor.Validate
    rw [if_neg hkey, if_neg hcode, if_pos hfail, if_pos (by simp [hb])]
  · intro hlt
    have hb : twofactor.validBackOffTime otp.lastVerificationTime now = true := by
      unfold twofactor.validBackOffTime
      exact decide_eq_true (by omega)
    unfold twofactor.Validate
    rw [if_neg hkey, if_neg hcode, if_pos hfail, if_neg (by simp [hb])]

/-- C3, witness: a locked state one second after its last failure stays
locked and unchanged. -/
theorem c3_lockdown_witness :
    twofactor.Validate twofactor.idHash twofactor.calcFix 1000000000
      { twofactor.sampleTotp with totalVerificationFailures := 3 } [9]
      = ({ twofactor.sampleTotp with totalVerificationFailures := 3 },
         some twofactor.VError.lockedDown) :=
  (c3_lockdown twofactor.idHash twofactor.calcFix 1000000000
    { twofactor.sampleTotp with totalVerificationFailures := 3 } [9]
    (by decide) (by decide) (by decide)).1 (by decide)

/-- C5: on a non-locked initialized state with a non-empty code, a match on
the current candidate succeeds with clientOffset unchanged; a match on the
minus-one candidate alone sets clientOffset to -1; a match on the plus-one
candidate alone sets it to 1 (the candidates are tried in the source order
current, previous, next); and no match increments the failure counter, sets
lastVerificationTime to now and returns TokenMismatch. -/
theorem c5_resync (H : List Nat → List Nat) (calcT : Int → List Nat)
    (now : Int) (otp : twofactor.Totp) (userCode : List Nat)
    (hkey : otp.key ≠ []) (hcode : userCode ≠ [])
    (hfail : otp.totalVerificationFailures < twofactor.maxFailures) :
    (H (calcT 0) = H userCode →
      twofactor.Validate H calcT now otp userCode =
        ({ otp with counter := twofactor.counterForIndex now otp.stepSize 1 },
         none)) ∧
    (H (calcT 0) ≠ H userCode → H (calcT (-1)) = H userCode →
      twofactor.Validate H calcT now otp userCode =
        ({ otp with counter := twofactor.counterForIndex now otp.stepSize 1,
                    clientOffset := -1 }, none)) ∧
    (H (calcT 0) ≠ H userCode → H (calcT (-1)) ≠ H userCode →
     H (calcT 1) = H userCode →
      twofactor.Validate H calcT now otp userCode =
        ({ otp with counter := twofactor.counterForIndex now otp.stepSize 1,
                    clientOffset := 1 }, none)) ∧
    (H (calcT 0) ≠ H userCode → H (calcT (-1)) ≠ H userCode →
     H (calcT 1) ≠ H userCode →
      twofactor.Validate H calcT now otp userCode =
        ({ otp with counter := twofactor.counterForIndex now otp.stepSize 1,
                    totalVerificationFailures := otp.totalVerificationFailures + 1,
                    lastVerificationTime := now },
         some twofactor.VError.tokenMismatch)) := by
  have h3 : ¬ twofactor.maxFailures ≤ otp.totalVerificationFailures :=
    not_le.mpr hfail
  refine ⟨?_, ?_, ?_, ?_⟩
  · intro h1
    simp [twofactor.Validate, twofactor.compareTokens, hkey, hcode, h3, h1]
  · intro h1 h0
    simp [twofactor.Validate, twofactor.compareTokens, hkey, hcode, h3, h1, h0]
  · intro h1 h0 h2
    simp [twofactor.Validate, twofactor.compareTokens, hkey, hcode, h3, h1, h0, h2]
  · intro h1 h0 h2
    simp [twofactor.Validate, twofactor.compareTokens, hkey, hcode, h3, h1, h0, h2]

/-- C5, witness: validating the minus-one candidate itself resynchronizes
the client offset to -1 with no error. -/
theorem c5_resync_witness :
    twofactor.Validate twofactor.idHash twofactor.calcFix 0
      twofactor.sampleTotp [2]
      = ({ twofactor.sampleTotp with
            counter := twofactor.counterForIndex 0 twofactor.sampleTotp.stepSize 1,
            clientOffset := -1 }, none) :=
  ((c5_resync twofactor.idHash twofactor.calcFix 0 twofactor.sampleTotp [2]
    (by decide) (by decide) (by decide)).2.1 (by decide) (by decide))

/-- C9: a successful validation on a state with fewer than maxFailures
failures leaves totalVerificationFailures and lastVerificationTime exactly
as they were: success never resets the counter, only the expiry of the
lock-down window does. -/
theorem c9_success_frame (H : List Nat → List Nat) (calcT : Int → List Nat)
    (now : Int) (otp : twofactor.Totp) (userCode : List Nat)
    (hkey : otp.key ≠ []) (hcode : userCode ≠ [])
    (hfail : otp.totalVerificationFailures < twofactor.maxFailures)
    (hmatch : H (calcT 0) = H userCode ∨ H (calcT (-1)) = H userCode ∨
              H (calcT 1) = H userCode) :
    (twofactor.Validate H calcT now otp userCode).2 = none ∧
    (twofactor.Validate H calcT now otp userCode).1.totalVerificationFailures
      = otp.totalVerificationFailures ∧
    (twofactor.Validate H calcT now otp userCode).1.lastVerificationTime
      = otp.lastVerificationTime := by
  have h3 : ¬ twofactor.maxFailures ≤ otp.totalVerificationFailures :=
    not_le.mpr hfail
  by_cases h1 : H (calcT 0) = H userCode
  · simp [twofactor.Validate, twofactor.compareTokens, hkey, hcode, h3, h1]
  · by_cases h0 : H (calcT (-1)) = H userCode
    · simp [twofactor.Validate, twofactor.compareTokens, hkey, hcode, h3, h1, h0]
    · have h2 : H (calcT 1) = H userCode := by tauto
      simp [twofactor.Validate, twofactor.compareTokens, hkey, hcode, h3, h1, h0, h2]

/-- C9, witness: a successful validation at the current candidate leaves the
failure counter and the last verification time of a state with two recorded
failures unchanged. -/
theorem c9_success_frame_witness :
    (twofactor.Validate twofactor.idHash twofactor.calcFix 7
      twofactor.sampleTotp2 [1]).2 = none ∧
    (twofactor.Validate twofactor.idHash twofactor.calcFix 7
      twofactor.sampleTotp2 [1]).1.totalVerificationFailures
      = twofactor.sampleTotp2.totalVerificationFailures ∧
    (twofactor.Validate twofactor.idHash twofactor.calcFix 7
      twofactor.sampleTotp2 [1]).1.lastVerificationTime
      = twofactor.sampleTotp2.lastVerificationTime :=
  c9_success_frame twofactor.idHash twofactor.calcFix 7
    twofactor.sampleTotp2 [1]
    (by decide) (by decide) (by decide) (Or.inl (by decide))

theorem toInt_length (n : Int) : (bigendian.toInt n).length = 4 := rfl

theorem toUint64_length (n : Nat) : (bigendian.toUint64 n).length = 8 := rfl

theorem listSlice_front (pre post : List Nat) {e : Nat} (he : pre.length = e) :
    twofactor.listSlice (pre ++ post) 0 e = pre := by
  unfold twofactor.listSlice
  rw [List.drop_zero, Nat.sub_zero]
  exact List.take_left' he

theorem listSlice_append (pre mid post : List Nat) {s e : Nat}
    (hs : pre.length = s) (he : e = s + mid.length) :
    twofactor.listSlice (pre ++ (mid ++ post)) s e = mid := by
  subst he
  unfold twofactor.listSlice
  rw [List.drop_left' hs, Nat.add_sub_cancel_left]
  exact List.take_left mid post

theorem listSlice_append_last (pre mid : List Nat) {s e : Nat}
    (hs : pre.length = s) (he : e = s + mid.length) :
    twofactor.listSlice (pre ++ mid) s e = mid := by
  subst he
  unfold twofactor.listSlice
  rw [List.drop_left' hs, Nat.add_sub_cancel_left, List.take_length]

theorem listSlice_exact (pre l : List Nat) {s e : Nat}
    (hs : pre.length = s) (hlen : l.length = e - s) :
    twofactor.listSlice (pre ++ l) s e = l := by
  unfold twofactor.listSlice
  rw [List.drop_left' hs, ← hlen, List.take_length]

theorem goUint64OfInt_lt (x : Int) : goUint64OfInt x < 2 ^ 64 := by
  unfold goUint64OfInt
  have h1 := Int.emod_nonneg x (by norm_num : (2 ^ 64 : Int) ≠ 0)
  have h2 := Int.emod_lt_of_pos x (by norm_num : (0 : Int) < 2 ^ 64)
  omega

theorem goInt64OfUint64_goUint64OfInt (x : Int)
    (h1 : -(2 ^ 63) ≤ x) (h2 : x < 2 ^ 63) :
    goInt64OfUint64 (goUint64OfInt x) = x := by
  unfold goUint64OfInt goInt64OfUint64
  have h3 := Int.emod_nonneg x (by norm_num : (2 ^ 64 : Int) ≠ 0)
  have h4 := Int.emod_lt_of_pos x (by norm_num : (0 : Int) < 2 ^ 64)
  have h5 : x % (2 ^ 64 : Int) = x ∨ x % (2 ^ 64 : Int) = x + 2 ^ 64 := by
    omega
  split <;> omega

theorem timeUnix_timeFromUnix (s : Int) :
    twofactor.timeUnix (twofactor.timeFromUnix s) = s := by
  unfold twofactor.timeUnix twofactor.timeFromUnix
  exact Int.mul_fdiv_cancel s (by norm_num [twofactor.nsPerSecond])

theorem fromInt_toInt_toNat (n : Nat) (h : n < 2 ^ 32) :
    (bigendian.fromInt (bigendian.toInt (n : Int))).toNat = n := by
  rw [fromInt_toInt_nonneg _ (by positivity) (by exact_mod_cast h)]
  exact Int.toNat_natCast n

theorem hashOfTypeCode_hashTypeCode (h : twofactor.HashAlgo) :
    twofactor.hashOfTypeCode
      (bigendian.fromInt (bigendian.toInt (twofactor.hashTypeCode h))) = h := by
  cases h <;> decide

theorem parseTotpBuffer_spec (k cnt iss acc : List Nat)
    (dig st off fails hashc : Int) (ts : Nat)
    (hcnt : cnt.length = 8)
    (hkS : k.length < 2 ^ 31) (hiS : iss.length < 2 ^ 31)
    (haS : acc.length < 2 ^ 31)
    (hdig : 0 ≤ dig) (hdig2 : dig < 2 ^ 32)
    (hst : 0 ≤ st) (hst2 : st < 2 ^ 32)
    (hoff : 0 ≤ off) (hoff2 : off < 2 ^ 32)
    (hfails : 0 ≤ fails) (hfails2 : fails < 2 ^ 32)
    (hhash : 0 ≤ hashc) (hhash2 : hashc < 2 ^ 32)
    (hts : ts < 2 ^ 64) :
    twofactor.parseTotpBuffer
      (bigendian.toInt (k.length : Int) ++ (k ++ (cnt ++ (bigendian.toInt dig ++ (bigendian.toInt (iss.length : Int) ++ (iss ++ (bigendian.toInt (acc.length : Int) ++ (acc ++ (bigendian.toInt st ++ (bigendian.toInt off ++ (bigendian.toInt fails ++ (bigendian.toUint64 ts ++ (bigendian.toInt hashc))))))))))))) =
    { key := k, counter := cnt, digits := dig, issuer := iss, account := acc,
      stepSize := st, clientOffset := off, totalVerificationFailures := fails,
      lastVerificationTime := twofactor.timeFromUnix (goInt64OfUint64 ts),
      hashFunction := twofactor.hashOfTypeCode hashc } := by
  simp only [twofactor.parseTotpBuffer]
  rw [listSlice_front (bigendian.toInt (k.length : Int))
      (k ++ (cnt ++ (bigendian.toInt dig ++ (bigendian.toInt (iss.length : Int) ++ (iss ++ (bigendian.toInt (acc.length : Int) ++ (acc ++ (bigendian.toInt st ++ (bigendian.toInt off ++ (bigendian.toInt fails ++ (bigendian.toUint64 ts ++ (bigendian.toInt hashc)))))))))))) (toInt_length _)]
  rw [fromInt_toInt_toNat k.length (by omega)]
  have hs1 : twofactor.listSlice
      (bigendian.toInt (k.length : Int) ++ (k ++ (cnt ++ (bigendian.toInt dig ++ (bigendian.toInt (iss.length : Int) ++ (iss ++ (bigendian.toInt (acc.length : Int) ++ (acc ++ (bigendian.toInt st ++ (bigendian.toInt off ++ (bigendian.toInt fails ++ (bigendian.toUint64 ts ++ (bigendian.toInt hashc)))))))))))))
      (4) (4 + k.length) = k := by
    rw [(by simp only [List.append_assoc] :
      (bigendian.toInt (k.length : Int) ++ (k ++ (cnt ++ (bigendian.toInt dig ++ (bigendian.toInt (iss.length : Int) ++ (iss ++ (bigendian.toInt (acc.length : Int) ++ (acc ++ (bigendian.toInt st ++ (bigendian.toInt off ++ (bigendian.toInt fails ++ (bigendian.toUint64 ts ++ (bigendian.toInt hashc))))))))))))) =
      (bigendian.toInt (k.length : Int)) ++ ((k) ++ (cnt ++ (bigendian.toInt dig ++ (bigendian.toInt (iss.length : Int) ++ (iss ++ (bigendian.toInt (acc.length : Int) ++ (acc ++ (bigendian.toInt st ++ (bigendian.toInt off ++ (bigendian.toInt fails ++ (bigendian.toUint64 ts ++ (bigendian.toInt hashc)))))))))))))]
    exact listSlice_append _ _ _ (by simp only [List.length_append, toInt_length, toUint64_length, hcnt] <;> omega) (by simp only [List.length_append, toInt_length, toUint64_length, hcnt] <;> omega)
  rw [hs1]
  have hs2 : twofactor.listSlice
      (bigendian.toInt (k.length : Int) ++ (k ++ (cnt ++ (bigendian.toInt dig ++ (bigendian.toInt (iss.length : Int) ++ (iss ++ (bigendian.toInt (acc.length : Int) ++ (acc ++ (bigendian.toInt st ++ (bigendian.toInt off ++ (bigendian.toInt fails ++ (bigendian.toUint64 ts ++ (bigendian.toInt hashc)))))))))))))
      (4 + k.length) (4 + k.length + 8) = cnt := by
    rw [(by simp only [List.append_assoc] :
      (bigendian.toInt (k.length : Int) ++ (k ++ (cnt ++ (bigendian.toInt dig ++ (bigendian.toInt (iss.length : Int) ++ (iss ++ (bigendian.toInt (acc.length : Int) ++ (acc ++ (bigendian.toInt st ++ (bigendian.toInt off ++ (bigendian.toInt fails ++ (bigendian.toUint64 ts ++ (bigendian.toInt hashc))))))))))))) =
      (bigendian.toInt (k.length : Int) ++ (k)) ++ ((cnt) ++ (bigendian.toInt dig ++ (bigendian.toInt (iss.length : Int) ++ (iss ++ (bigendian.toInt (acc.length : Int) ++ (acc ++ (bigendian.toInt st ++ (bigendian.toInt off ++ (bigendian.toInt fails ++ (bigendian.toUint64 ts ++ (bigendian.toInt hashc))))))))))))]
    exact listSlice_append _ _ _ (by simp only [List.length_append, toInt_length, toUint64_length, hcnt] <;> omega) (by simp only [List.length_append, toInt_length, toUint64_length, hcnt] <;> omega)
  rw [hs2]
  have hs3 : twofactor.listSlice
      (bigendian.toInt (k.length : Int) ++ (k ++ (cnt ++ (bigendian.toInt dig ++ (bigendian.toInt (iss.length : Int) ++ (iss ++ (bigendian.toInt (acc.length : Int) ++ (acc ++ (bigendian.toInt st ++ (bigendian.toInt off ++ (bigendian.toInt fails ++ (bigendian.toUint64 ts ++ (bigendian.toInt hashc)))))))))))))
      (4 + k.length + 8) (4 + k.length + 8 + 4) = bigendian.toInt dig := by
    rw [(by simp only [List.append_assoc] :
      (bigendian.toInt (k.length : Int) ++ (k ++ (cnt ++ (bigendian.toInt dig ++ (bigendian.toInt (iss.length : Int) ++ (iss ++ (bigendian.toInt (acc.length : Int) ++ (acc ++ (bigendian.toInt st ++ (bigendian.toInt off ++ (bigendian.toInt fails ++ (bigendian.toUint64 ts ++ (bigendian.toInt hashc))))))))))))) =
      (bigendian.toInt (k.length : Int) ++ (k ++ (cnt))) ++ ((bigendian.toInt dig) ++ (bigendian.toInt (iss.length : Int) ++ (iss ++ (bigendian.toInt (acc.length : Int) ++ (acc ++ (bigendian.toInt st ++ (bigendian.toInt off ++ (bigendian.toInt fails ++ (bigendian.toUint64 ts ++ (bigendian.toInt hashc)))))))))))]
    exact listSlice_append _ _ _ (by simp only [List.length_append, toInt_length, toUint64_length, hcnt] <;> omega) (by simp only [List.length_append, toInt_length, toUint64_length, hcnt] <;> omega)
  rw [hs3]
  have hs4 : twofactor.listSlice
      (bigendian.toInt (k.length : Int) ++ (k ++ (cnt ++ (bigendian.toInt dig ++ (bigendian.toInt (iss.length : Int) ++ (iss ++ (bigendian.toInt (acc.length : Int) ++ (acc ++ (bigendian.toInt st ++ (bigendian.toInt off ++ (bigendian.toInt fails ++ (bigendian.toUint64 ts ++ (bigendian.toInt hashc)))))))))))))
      (4 + k.length + 8 + 4) (4 + k.length + 8 + 4 + 4) = bigendian.toInt (iss.length : Int) := by
    rw [(by simp only [List.append_assoc] :
      (bigendian.toInt (k.length : Int) ++ (k ++ (cnt ++ (bigendian.toInt dig ++ (bigendian.toInt (iss.length : Int) ++ (iss ++ (bigendian.toInt (acc.length : Int) ++ (acc ++ (bigendian.toInt st ++ (bigendian.toInt off ++ (bigendian.toInt fails ++ (bigendian.toUint64 ts ++ (bigendian.toInt hashc))))))))))))) =
      (bigendian.toInt (k.length : Int) ++ (k ++ (cnt ++ (bigendian.toInt dig)))) ++ ((bigendian.toInt (iss.length : Int)) ++ (iss ++ (bigendian.toInt (acc.length : Int) ++ (acc ++ (bigendian.toInt st ++ (bigendian.toInt off ++ (bigendian.toInt fails ++ (bigendian.toUint64 ts ++ (bigendian.toInt hashc))))))))))]
    exact listSlice_append _ _ _ (by simp only [List.length_append, toInt_length, toUint64_length, hcnt] <;> omega) (by simp only [List.length_append, toInt_length, toUint64_length, hcnt] <;> omega)
  rw [hs4]
  rw [fromInt_toInt_toNat iss.length (by omega)]
  have hs5 : twofactor.listSlice
      (bigendian.toInt (k.length : Int) ++ (k ++ (cnt ++ (bigendian.toInt dig ++ (bigendian.toInt (iss.length : Int) ++ (iss ++ (bigendian.toInt (acc.length : Int) ++ (acc ++ (bigendian.toInt st ++ (bigendian.toInt off ++ (bigendian.toInt fails ++ (bigendian.toUint64 ts ++ (bigendian.toInt hashc)))))))))))))
      (4 + k.length + 8 + 4 + 4) (4 + k.length + 8 + 4 + 4 + iss.length) = iss := by
    rw [(by simp only [List.append_assoc] :
      (bigendian.toInt (k.length : Int) ++ (k ++ (cnt ++ (bigendian.toInt dig ++ (bigendian.toInt (iss.length : Int) ++ (iss ++ (bigendian.toInt (acc.length : Int) ++ (acc ++ (bigendian.toInt st ++ (bigendian.toInt off ++ (bigendian.toInt fails ++ (bigendian.toUint64 ts ++ (bigendian.toInt hashc))))))))))))) =
      (bigendian.toInt (k.length : Int) ++ (k ++ (cnt ++ (bigendian.toInt dig ++ (bigendian.toInt (iss.length : Int)))))) ++ ((iss) ++ (bigendian.toInt (acc.length : Int) ++ (acc ++ (bigendian.toInt st ++ (bigendian.toInt off ++ (bigendian.toInt fails ++ (bigendian.toUint64 ts ++ (bigendian.toInt hashc)))))))))]
    exact listSlice_append _ _ _ (by simp only [List.length_append, toInt_length, toUint64_length, hcnt] <;> omega) (by simp only [List.length_append, toInt_length, toUint64_length, hcnt] <;> omega)
  rw [hs5]
  have hs6 : twofactor.listSlice
      (bigendian.toInt (k.length : Int) ++ (k ++ (cnt ++ (bigendian.toInt dig ++ (bigendian.toInt (iss.length : Int) ++ (iss ++ (bigendian.toInt (acc.length : Int) ++ (acc ++ (bigendian.toInt st ++ (bigendian.toInt off ++ (bigendian.toInt fails ++ (bigendian.toUint64 ts ++ (bigendian.toInt hashc)))))))))))))
      (4 + k.length + 8 + 4 + 4 + iss.length) (4 + k.length + 8 + 4 + 4 + iss.length + 4) = bigendian.toInt (acc.length : Int) := by
    rw [(by simp only [List.append_assoc] :
      (bigendian.toInt (k.length : Int) ++ (k ++ (cnt ++ (bigendian.toInt dig ++ (bigendian.toInt (iss.length : Int) ++ (iss ++ (bigendian.toInt (acc.length : Int) ++ (acc ++ (bigendian.toInt st ++ (bigendian.toInt off ++ (bigendian.toInt fails ++ (bigendian.toUint64 ts ++ (bigendian.toInt hashc))))))))))))) =
      (bigendian.toInt (k.length : Int) ++ (k ++ (cnt ++ (bigendian.toInt dig ++ (bigendian.toInt (iss.length : Int) ++ (iss)))))) ++ ((bigendian.toInt (acc.length : Int)) ++ (acc ++ (bigendian.toInt st ++ (bigendian.toInt off ++ (bigendian.toInt fails ++ (bigendian.toUint64 ts ++ (bigendian.toInt hashc))))))))]
    exact listSlice_append _ _ _ (by simp only [List.length_append, toInt_length, toUint64_length, hcnt] <;> omega) (by simp only [List.length_append, toInt_length, toUint64_length, hcnt] <;> omega)
  rw [hs6]
  rw [fromInt_toInt_toNat acc.length (by omega)]
  have hs7 : twofactor.listSlice
      (bigendian.toInt (k.length : Int) ++ (k ++ (cnt ++ (bigendian.toInt dig ++ (bigendian.toInt (iss.length : Int) ++ (iss ++ (bigendian.toInt (acc.length : Int) ++ (acc ++ (bigendian.toInt st ++ (bigendian.toInt off ++ (bigendian.toInt fails ++ (bigendian.toUint64 ts ++ (bigendian.toInt hashc)))))))))))))
      (4 + k.length + 8 + 4 + 4 + iss.length + 4) (4 + k.length + 8 + 4 + 4 + iss.length + 4 + acc.length) = acc := by
    rw [(by simp only [List.append_assoc] :
      (bigendian.toInt (k.length : Int) ++ (k ++ (cnt ++ (bigendian.toInt dig ++ (bigendian.toInt (iss.length : Int) ++ (iss ++ (bigendian.toInt (acc.length : Int) ++ (acc ++ (bigendian.toInt st ++ (bigendian.toInt off ++ (bigendian.toInt fails ++ (bigendian.toUint64 ts ++ (bigendian.toInt hashc))))))))))))) =
      (bigendian.toInt (k.length : Int) ++ (k ++ (cnt ++ (bigendian.toInt dig ++ (bigendian.toInt (iss.length : Int) ++ (iss ++ (bigendian.toInt (acc.length : Int)))))))) ++ ((acc) ++ (bigendian.toInt st ++ (bigendian.toInt off ++ (bigendian.toInt fails ++ (bigendian.toUint64 ts ++ (bigendian.toInt hashc)))))))]
    exact listSlice_append _ _ _ (by simp only [List.length_append, toInt_length, toUint64_length, hcnt] <;> omega) (by simp only [List.length_append, toInt_length, toUint64_length, hcnt] <;> omega)
  rw [hs7]
  have hs8 : twofactor.listSlice
      (bigendian.toInt (k.length : Int) ++ (k ++ (cnt ++ (bigendian.toInt dig ++ (bigendian.toInt (iss.length : Int) ++ (iss ++ (bigendian.toInt (acc.length : Int) ++ (acc ++ (bigendian.toInt st ++ (bigendian.toInt off ++ (bigendian.toInt fails ++ (bigendian.toUint64 ts ++ (bigendian.toInt hashc)))))))))))))
      (4 + k.length + 8 + 4 + 4 + iss.length + 4 + acc.length) (4 + k.length + 8 + 4 + 4 + iss.length + 4 + acc.length + 4) = bigendian.toInt st := by
    rw [(by simp only [List.append_assoc] :
      (bigendian.toInt (k.length : Int) ++ (k ++ (cnt ++ (bigendian.toInt dig ++ (bigendian.toInt (iss.length : Int) ++ (iss ++ (bigendian.toInt (acc.length : Int) ++ (acc ++ (bigendian.toInt st ++ (bigendian.toInt off ++ (bigendian.toInt fails ++ (bigendian.toUint64 ts ++ (bigendian.toInt hashc))))))))))))) =
      (bigendian.toInt (k.length : Int) ++ (k ++ (cnt ++ (bigendian.toInt dig ++ (bigendian.toInt (iss.length : Int) ++ (iss ++ (bigendian.toInt (acc.length : Int) ++ (acc)))))))) ++ ((bigendian.toInt st) ++ (bigendian.toInt off ++ (bigendian.toInt fails ++ (bigendian.toUint64 ts ++ (bigendian.toInt hashc))))))]
    exact listSlice_append _ _ _ (by simp only [List.length_append, toInt_length, toUint64_length, hcnt] <;> omega) (by simp only [List.length_append, toInt_length, toUint64_length, hcnt] <;> omega)
  rw [hs8]
  have hs9 : twofactor.listSlice
      (bigendian.toInt (k.length : Int) ++ (k ++ (cnt ++ (bigendian.toInt dig ++ (bigendian.toInt (iss.length : Int) ++ (iss ++ (bigendian.toInt (acc.length : Int) ++ (acc ++ (bigendian.toInt st ++ (bigendian.toInt off ++ (bigendian.toInt fails ++ (bigendian.toUint64 ts ++ (bigendian.toInt hashc)))))))))))))
      (4 + k.length + 8 + 4 + 4 + iss.length + 4 + acc.length + 4) (4 + k.length + 8 + 4 + 4 + iss.length + 4 + acc.length + 4 + 4) = bigendian.toInt off := by
    rw [(by simp only [List.append_assoc] :
      (bigendian.toInt (k.length : Int) ++ (k ++ (cnt ++ (bigendian.toInt dig ++ (bigendian.toInt (iss.length : Int) ++ (iss ++ (bigendian.toInt (acc.length : Int) ++ (acc ++ (bigendian.toInt st ++ (bigendian.toInt off ++ (bigendian.toInt fails ++ (bigendian.toUint64 ts ++ (bigendian.toInt hashc))))))))))))) =
      (bigendian.toInt (k.length : Int) ++ (k ++ (cnt ++ (bigendian.toInt dig ++ (bigendian.toInt (iss.length : Int) ++ (iss ++ (bigendian.toInt (acc.length : Int) ++ (acc ++ (bigendian.toInt st))))))))) ++ ((bigendian.toInt off) ++ (bigendian.toInt fails ++ (bigendian.toUint64 ts ++ (bigendian.toInt hashc)))))]
    exact listSlice_append _ _ _ (by simp only [List.length_append, toInt_length, toUint64_length, hcnt] <;> omega) (by simp only [List.length_append, toInt_length, toUint64_length, hcnt] <;> omega)
  rw [hs9]
  have hs10 : twofactor.listSlice
      (bigendian.toInt (k.length : Int) ++ (k ++ (cnt ++ (bigendian.toInt dig ++ (bigendian.toInt (iss.length : Int) ++ (iss ++ (bigendian.toInt (acc.length : Int) ++ (acc ++ (bigendian.toInt st ++ (bigendian.toInt off ++ (bigendian.toInt fails ++ (bigendian.toUint64 ts ++ (bigendian.toInt hashc)))))))))))))
      (4 + k.length + 8 + 4 + 4 + iss.length + 4 + acc.length + 4 + 4) (4 + k.length + 8 + 4 + 4 + iss.length + 4 + acc.length + 4 + 4 + 4) = bigendian.toInt fails := by
    rw [(by simp only [List.append_assoc] :
      (bigendian.toInt (k.length : Int) ++ (k ++ (cnt ++ (bigendian.toInt dig ++ (bigendian.toInt (iss.length : Int) ++ (iss ++ (bigendian.toInt (acc.length : Int) ++ (acc ++ (bigendian.toInt st ++ (bigendian.toInt off ++ (bigendian.toInt fails ++ (bigendian.toUint64 ts ++ (bigendian.toInt hashc))))))))))))) =
      (bigendian.toInt (k.length : Int) ++ (k ++ (cnt ++ (bigendian.toInt dig ++ (bigendian.toInt (iss.length : Int) ++ (iss ++ (bigendian.toInt (acc.length : Int) ++ (acc ++ (bigendian.toInt st ++ (bigendian.toInt off)))))))))) ++ ((bigendian.toInt fails) ++ (bigendian.toUint64 ts ++ (bigendian.toInt hashc))))]
    exact listSlice_append _ _ _ (by simp only [List.length_append, toInt_length, toUint64_length, hcnt] <;> omega) (by simp only [List.length_append, toInt_length, toUint64_length, hcnt] <;> omega)
  rw [hs10]
  have hs11 : twofactor.listSlice
      (bigendian.toInt (k.length : Int) ++ (k ++ (cnt ++ (bigendian.toInt dig ++ (bigendian.toInt (iss.length : Int) ++ (iss ++ (bigendian.toInt (acc.length : Int) ++ (acc ++ (bigendian.toInt st ++ (bigendian.toInt off ++ (bigendian.toInt fails ++ (bigendian.toUint64 ts ++ (bigendian.toInt hashc)))))))))))))
      (4 + k.length + 8 + 4 + 4 + iss.length + 4 + acc.length + 4 + 4 + 4) (4 + k.length + 8 + 4 + 4 + iss.length + 4 + acc.length + 4 + 4 + 4 + 8) = bigendian.toUint64 ts := by
    rw [(by simp only [List.append_assoc] :
      (bigendian.toInt (k.length : Int) ++ (k ++ (cnt ++ (bigendian.toInt dig ++ (bigendian.toInt (iss.length : Int) ++ (iss ++ (bigendian.toInt (acc.length : Int) ++ (acc ++ (bigendian.toInt st ++ (bigendian.toInt off ++ (bigendian.toInt fails ++ (bigendian.toUint64 ts ++ (bigendian.toInt hashc))))))))))))) =
      (bigendian.toInt (k.length : Int) ++ (k ++ (cnt ++ (bigendian.toInt dig ++ (bigendian.toInt (iss.length : Int) ++ (iss ++ (bigendian.toInt (acc.length : Int) ++ (acc ++ (bigendian.toInt st ++ (bigendian.toInt off ++ (bigendian.toInt fails))))))))))) ++ ((bigendian.toUint64 ts) ++ (bigendian.toInt hashc)))]
    exact listSlice_append _ _ _ (by simp only [List.length_append, toInt_length, toUint64_length, hcnt] <;> omega) (by simp only [List.length_append, toInt_length, toUint64_length, hcnt] <;> omega)
  rw [hs11]
  have hs12 : twofactor.listSlice
      (bigendian.toInt (k.length : Int) ++ (k ++ (cnt ++ (bigendian.toInt dig ++ (bigendian.toInt (iss.length : Int) ++ (iss ++ (bigendian.toInt (acc.length : Int) ++ (acc ++ (bigendian.toInt st ++ (bigendian.toInt off ++ (bigendian.toInt fails ++ (bigendian.toUint64 ts ++ (bigendian.toInt hashc)))))))))))))
      (4 + k.length + 8 + 4 + 4 + iss.length + 4 + acc.length + 4 + 4 + 4 + 8) (4 + k.length + 8 + 4 + 4 + iss.length + 4 + acc.length + 4 + 4 + 4 + 8 + 4) = bigendian.toInt hashc := by
    rw [(by simp only [List.append_assoc] :
      (bigendian.toInt (k.length : Int) ++ (k ++ (cnt ++ (bigendian.toInt dig ++ (bigendian.toInt (iss.length : Int) ++ (iss ++ (bigendian.toInt (acc.length : Int) ++ (acc ++ (bigendian.toInt st ++ (bigendian.toInt off ++ (bigendian.toInt fails ++ (bigendian.toUint64 ts ++ (bigendian.toInt hashc))))))))))))) =
      (bigendian.toInt (k.length : Int) ++ (k ++ (cnt ++ (bigendian.toInt dig ++ (bigendian.toInt (iss.length : Int) ++ (iss ++ (bigendian.toInt (acc.length : Int) ++ (acc ++ (bigendian.toInt st ++ (bigendian.toInt off ++ (bigendian.toInt fails ++ (bigendian.toUint64 ts)))))))))))) ++ (bigendian.toInt hashc))]
    exact listSlice_append_last _ _ (by simp only [List.length_append, toInt_length, toUint64_length, hcnt] <;> omega) (by simp only [List.length_append, toInt_length, toUint64_length, hcnt] <;> omega)
  rw [hs12]
  rw [fromInt_toInt_nonneg dig hdig hdig2]
  rw [fromInt_toInt_nonneg st hst hst2]
  rw [fromInt_toInt_nonneg off hoff hoff2]
  rw [fromInt_toInt_nonneg fails hfails hfails2]
  rw [fromInt_toInt_nonneg hashc hhash hhash2]
  rw [fromUint64_toUint64 ts hts]

theorem smallendian_toUint64_length (n : Nat) :
    (smallendian.toUint64 n).length = 8 := rfl

theorem smallendian_toInt_length (n : Int) :
    (smallendian.toInt n).length = 4 := rfl

theorem hashAlgo_code_id (h : twofactor.HashAlgo) :
    twofactor.hashOfTypeCode (twofactor.hashTypeCode h) = h := by
  cases h <;> rfl

/-- C1 (amended): for every valid TOTP state with clientOffset zero or one
(the reachable nonnegative offsets; a negative offset does NOT survive the
round trip, see the counterexample), 32-bit-representable sizes and counts
and an int64-representable timestamp, deserializing the serialization
restores key, counter-as-int, digits, issuer, account, stepSize,
clientOffset, totalVerificationFailures, lastVerificationTime truncated to
seconds, and hashFunction.  The crypto engine's secretbox is abstracted by
sealF/opn/nonce together with its round-trip contract. -/
theorem c1_serialization_roundtrip
    (sealF : List Nat → List Nat)
    (opn : List Nat → List Nat → Option (List Nat)) (nonce : List Nat)
    (otp : twofactor.Totp)
    (hnonce : nonce.length = 24)
    (hopen : ∀ m, opn nonce (sealF m) = some m)
    (hseal : ∀ m, m.length ≤ (sealF m).length)
    (hkey : otp.key ≠ [])
    (hcntb : ∀ i, otp.counter.getD i 0 < 256)
    (hdig : otp.digits = 6 ∨ otp.digits = 7 ∨ otp.digits = 8)
    (hstep : 0 < otp.stepSize) (hstep2 : otp.stepSize < 2 ^ 31)
    (hoff : otp.clientOffset = 0 ∨ otp.clientOffset = 1)
    (hfails : 0 ≤ otp.totalVerificationFailures)
    (hfails2 : otp.totalVerificationFailures < 2 ^ 31)
    (hkS : otp.key.length < 2 ^ 31) (hiS : otp.issuer.length < 2 ^ 31)
    (haS : otp.account.length < 2 ^ 31)
    (htot : 4 + 4 + otp.key.length + 8 + 4 + 4 + otp.issuer.length + 4 + otp.account.length + 4 + 4 + 4 + 8 + 4 < 2 ^ 31)
    (hsec1 : -(2 ^ 63) ≤ twofactor.timeUnix otp.lastVerificationTime)
    (hsec2 : twofactor.timeUnix otp.lastVerificationTime < 2 ^ 63) :
    ∃ bs otp', twofactor.ToBytes sealF nonce otp = some bs ∧
      twofactor.TOTPFromBytes opn bs = some otp' ∧
      otp'.key = otp.key ∧
      twofactor.getIntCounter otp' = twofactor.getIntCounter otp ∧
      otp'.digits = otp.digits ∧ otp'.issuer = otp.issuer ∧
      otp'.account = otp.account ∧ otp'.stepSize = otp.stepSize ∧
      otp'.clientOffset = otp.clientOffset ∧
      otp'.totalVerificationFailures = otp.totalVerificationFailures ∧
      twofactor.timeUnix otp'.lastVerificationTime
        = twofactor.timeUnix otp.lastVerificationTime ∧
      otp'.hashFunction = otp.hashFunction := by
  have hserlen : (twofactor.serialize otp).length = 4 + 4 + otp.key.length + 8 + 4 + 4 + otp.issuer.length + 4 + otp.account.length + 4 + 4 + 4 + 8 + 4 := by
    simp only [twofactor.serialize, List.length_append, toInt_length,
      toUint64_length]
    omega
  have hMBlen : (cryptoengine.messageToBytes { version := 0, mtype := 0, text := twofactor.serialize otp }).length = 8 + (twofactor.serialize otp).length := by
    simp only [cryptoengine.messageToBytes, List.length_append,
      smallendian_toInt_length]
  have hclen : 52 ≤ (sealF (cryptoengine.messageToBytes { version := 0, mtype := 0, text := twofactor.serialize otp })).length := by
    have h1 := hseal (cryptoengine.messageToBytes { version := 0, mtype := 0, text := twofactor.serialize otp })
    omega
  have hbs : (cryptoengine.encryptedMessageToBytes (cryptoengine.NewEncryptedMessage sealF nonce { version := 0, mtype := 0, text := twofactor.serialize otp })) =
      smallendian.toUint64 ((sealF (cryptoengine.messageToBytes { version := 0, mtype := 0, text := twofactor.serialize otp })).length + nonce.length + 8) ++
        nonce ++ sealF (cryptoengine.messageToBytes { version := 0, mtype := 0, text := twofactor.serialize otp }) := rfl
  have hBSlen : (cryptoengine.encryptedMessageToBytes (cryptoengine.NewEncryptedMessage sealF nonce { version := 0, mtype := 0, text := twofactor.serialize otp })).length = 8 + nonce.length + (sealF (cryptoengine.messageToBytes { version := 0, mtype := 0, text := twofactor.serialize otp })).length := by
    rw [hbs]
    simp only [List.length_append, smallendian_toUint64_length]
  have hdrop8 : (cryptoengine.encryptedMessageToBytes (cryptoengine.NewEncryptedMessage sealF nonce { version := 0, mtype := 0, text := twofactor.serialize otp })).drop 8 = nonce ++ sealF (cryptoengine.messageToBytes { version := 0, mtype := 0, text := twofactor.serialize otp }) := by
    rw [hbs]
    rw [(by simp only [List.append_assoc] :
      smallendian.toUint64 ((sealF (cryptoengine.messageToBytes { version := 0, mtype := 0, text := twofactor.serialize otp })).length + nonce.length + 8) ++
        nonce ++ sealF (cryptoengine.messageToBytes { version := 0, mtype := 0, text := twofactor.serialize otp }) =
      smallendian.toUint64 ((sealF (cryptoengine.messageToBytes { version := 0, mtype := 0, text := twofactor.serialize otp })).length + nonce.length + 8) ++
        (nonce ++ sealF (cryptoengine.messageToBytes { version := 0, mtype := 0, text := twofactor.serialize otp })))]
    exact List.drop_left' (smallendian_toUint64_length _)
  have hEMFB : cryptoengine.encryptedMessageFromBytes (cryptoengine.encryptedMessageToBytes (cryptoengine.NewEncryptedMessage sealF nonce { version := 0, mtype := 0, text := twofactor.serialize otp })) = some
      { length := smallendian.fromUint64 ((cryptoengine.encryptedMessageToBytes (cryptoengine.NewEncryptedMessage sealF nonce { version := 0, mtype := 0, text := twofactor.serialize otp })).take 8),
        nonce := nonce,
        data := sealF (cryptoengine.messageToBytes { version := 0, mtype := 0, text := twofactor.serialize otp }) } := by
    unfold cryptoengine.encryptedMessageFromBytes
    rw [if_neg (by omega)]
    have h2 : ((cryptoengine.encryptedMessageToBytes (cryptoengine.NewEncryptedMessage sealF nonce { version := 0, mtype := 0, text := twofactor.serialize otp })).drop 8).take 24 = nonce := by
      rw [hdrop8]
      exact List.take_left' hnonce
    have h3 : (cryptoengine.encryptedMessageToBytes (cryptoengine.NewEncryptedMessage sealF nonce { version := 0, mtype := 0, text := twofactor.serialize otp })).drop 32 = sealF (cryptoengine.messageToBytes { version := 0, mtype := 0, text := twofactor.serialize otp }) := by
      have e : (((cryptoengine.encryptedMessageToBytes (cryptoengine.NewEncryptedMessage sealF nonce { version := 0, mtype := 0, text := twofactor.serialize otp })).drop 8)).drop 24 = (cryptoengine.encryptedMessageToBytes (cryptoengine.NewEncryptedMessage sealF nonce { version := 0, mtype := 0, text := twofactor.serialize otp })).drop 32 := by
        rw [List.drop_drop]
      rw [← e, hdrop8, List.drop_left' hnonce]
    rw [h2, h3]
  have hDecrypt : cryptoengine.Decrypt opn (cryptoengine.encryptedMessageToBytes (cryptoengine.NewEncryptedMessage sealF nonce { version := 0, mtype := 0, text := twofactor.serialize otp })) =
      .ok (cryptoengine.messageFromBytes (cryptoengine.messageToBytes { version := 0, mtype := 0, text := twofactor.serialize otp })) := by
    unfold cryptoengine.Decrypt
    rw [hEMFB]
    dsimp only
    rw [hopen]
  have hMFB : cryptoengine.messageFromBytes (cryptoengine.messageToBytes { version := 0, mtype := 0, text := twofactor.serialize otp }) = some
      { version := smallendian.fromInt ((cryptoengine.messageToBytes { version := 0, mtype := 0, text := twofactor.serialize otp }).take 4),
        mtype := smallendian.fromInt (((cryptoengine.messageToBytes { version := 0, mtype := 0, text := twofactor.serialize otp }).drop 4).take 4),
        text := twofactor.serialize otp } := by
    unfold cryptoengine.messageFromBytes
    rw [if_neg (by omega)]
    have h4 : (cryptoengine.messageToBytes { version := 0, mtype := 0, text := twofactor.serialize otp }).drop 8 = twofactor.serialize otp := by
      show ((smallendian.toInt 0 ++ smallendian.toInt 0) ++
        twofactor.serialize otp).drop 8 = twofactor.serialize otp
      exact List.drop_left' rfl
    rw [h4]
  have hTFB : twofactor.TOTPFromBytes opn (cryptoengine.encryptedMessageToBytes (cryptoengine.NewEncryptedMessage sealF nonce { version := 0, mtype := 0, text := twofactor.serialize otp })) =
      some (twofactor.parseTotp (twofactor.serialize otp)) := by
    unfold twofactor.TOTPFromBytes
    rw [hDecrypt, hMFB]
  have hser : twofactor.serialize otp =
      bigendian.toInt ((4 + 4 + otp.key.length + 8 + 4 + 4 + otp.issuer.length + 4 + otp.account.length + 4 + 4 + 4 + 8 + 4 : Nat) : Int) ++ (bigendian.toInt (otp.key.length : Int) ++ (otp.key ++ (bigendian.toUint64 (twofactor.getIntCounter otp) ++ (bigendian.toInt otp.digits ++ (bigendian.toInt (otp.issuer.length : Int) ++ (otp.issuer ++ (bigendian.toInt (otp.account.length : Int) ++ (otp.account ++ (bigendian.toInt otp.stepSize ++ (bigendian.toInt otp.clientOffset ++ (bigendian.toInt otp.totalVerificationFailures ++ (bigendian.toUint64 (goUint64OfInt (twofactor.timeUnix otp.lastVerificationTime)) ++ (bigendian.toInt (twofactor.hashTypeCode otp.hashFunction)))))))))))))) := rfl
  have hp1 : twofactor.listSlice (twofactor.serialize otp) 0 4 =
      bigendian.toInt ((4 + 4 + otp.key.length + 8 + 4 + 4 + otp.issuer.length + 4 + otp.account.length + 4 + 4 + 4 + 8 + 4 : Nat) : Int) := by
    rw [hser]
    exact listSlice_front _ _ (toInt_length _)
  have hp2 : (bigendian.fromInt
      (bigendian.toInt ((4 + 4 + otp.key.length + 8 + 4 + 4 + otp.issuer.length + 4 + otp.account.length + 4 + 4 + 4 + 8 + 4 : Nat) : Int))).toNat = 4 + 4 + otp.key.length + 8 + 4 + 4 + otp.issuer.length + 4 + otp.account.length + 4 + 4 + 4 + 8 + 4 :=
    fromInt_toInt_toNat _ (by omega)
  have hp3 : twofactor.listSlice (twofactor.serialize otp) 4
      (4 + 4 + otp.key.length + 8 + 4 + 4 + otp.issuer.length + 4 + otp.account.length + 4 + 4 + 4 + 8 + 4) = (bigendian.toInt (otp.key.length : Int) ++ (otp.key ++ (bigendian.toUint64 (twofactor.getIntCounter otp) ++ (bigendian.toInt otp.digits ++ (bigendian.toInt (otp.issuer.length : Int) ++ (otp.issuer ++ (bigendian.toInt (otp.account.length : Int) ++ (otp.account ++ (bigendian.toInt otp.stepSize ++ (bigendian.toInt otp.clientOffset ++ (bigendian.toInt otp.totalVerificationFailures ++ (bigendian.toUint64 (goUint64OfInt (twofactor.timeUnix otp.lastVerificationTime)) ++ (bigendian.toInt (twofactor.hashTypeCode otp.hashFunction)))))))))))))) := by
    rw [hser]
    refine listSlice_exact _ _ (toInt_length _) ?_
    simp only [List.length_append, toInt_length, toUint64_length]
    omega
  have hparse : twofactor.parseTotp (twofactor.serialize otp) =
      { key := otp.key, counter := bigendian.toUint64 (twofactor.getIntCounter otp),
          digits := otp.digits, issuer := otp.issuer, account := otp.account,
          stepSize := otp.stepSize, clientOffset := otp.clientOffset,
          totalVerificationFailures := otp.totalVerificationFailures,
          lastVerificationTime := twofactor.timeFromUnix (goInt64OfUint64
            (goUint64OfInt (twofactor.timeUnix otp.lastVerificationTime))),
          hashFunction := twofactor.hashOfTypeCode
            (twofactor.hashTypeCode otp.hashFunction) } := by
    simp only [twofactor.parseTotp]
    rw [hp1, hp2, hp3]
    exact parseTotpBuffer_spec otp.key
      (bigendian.toUint64 (twofactor.getIntCounter otp))
      otp.issuer otp.account otp.digits otp.stepSize otp.clientOffset
      otp.totalVerificationFailures (twofactor.hashTypeCode otp.hashFunction)
      (goUint64OfInt (twofactor.timeUnix otp.lastVerificationTime))
      (toUint64_length _) hkS hiS haS
      (by rcases hdig with h | h | h <;> rw [h] <;> norm_num)
      (by rcases hdig with h | h | h <;> rw [h] <;> norm_num)
      (le_of_lt hstep) (by omega)
      (by rcases hoff with h | h <;> rw [h] <;> norm_num)
      (by rcases hoff with h | h <;> rw [h] <;> norm_num)
      hfails (by omega)
      (by cases otp.hashFunction <;> decide)
      (by cases otp.hashFunction <;> decide)
      (goUint64OfInt_lt _)
  refine ⟨cryptoengine.encryptedMessageToBytes (cryptoengine.NewEncryptedMessage sealF nonce { version := 0, mtype := 0, text := twofactor.serialize otp }), twofactor.parseTotp (twofactor.serialize otp), ?_, hTFB,
    ?_, ?_, ?_, ?_, ?_, ?_, ?_, ?_, ?_, ?_⟩
  · unfold twofactor.ToBytes
    rw [if_neg hkey]
  · rw [hparse]
  · rw [hparse]
    exact fromUint64_toUint64 _ (fromUint64_lt _ hcntb)
  · rw [hparse]
  · rw [hparse]
  · rw [hparse]
  · rw [hparse]
  · rw [hparse]
  · rw [hparse]
  · rw [hparse]
    rw [timeUnix_timeFromUnix]
    exact goInt64OfUint64_goUint64OfInt _ hsec1 hsec2
  · rw [hparse]
    exact hashAlgo_code_id otp.hashFunction

theorem sampleTotp_counter_bytes :
    ∀ i, twofactor.sampleTotp.counter.getD i 0 < 256 := by
  intro i
  rcases i with _ | _ | _ | _ | _ | _ | _ | _ | n
  · decide
  · decide
  · decide
  · decide
  · decide
  · decide
  · decide
  · decide
  · show (([] : List Nat)).getD n 0 < 256
    rw [List.getD_nil]
    decide

/-- C1, counterexample: a state with clientOffset -1 (a value Validate
itself produces on a minus-one resynchronization) does not survive the
round trip: the restored clientOffset is 4294967295, because ToBytes writes
the low 32 bits and TOTPFromBytes reassembles them into a 64-bit int
without sign extension. -/
theorem c1_counterexample :
    (twofactor.TOTPFromBytes twofactor.opnFix
      ((twofactor.ToBytes twofactor.sealFix twofactor.nonceFix
        { twofactor.sampleTotp with clientOffset := -1 }).getD [])).map
      twofactor.Totp.clientOffset = some (4294967295 : Int) ∧
    ({ twofactor.sampleTotp with clientOffset := -1 } :
      twofactor.Totp).clientOffset = -1 := by
  exact ⟨by decide, by decide⟩

/-- C1, witness: the round trip at a concrete valid state with the identity
seal and open functions. -/
theorem c1_serialization_roundtrip_witness :
    ∃ bs otp', twofactor.ToBytes twofactor.sealFix twofactor.nonceFix
        twofactor.sampleTotp = some bs ∧
      twofactor.TOTPFromBytes twofactor.opnFix bs = some otp' ∧
      otp'.key = twofactor.sampleTotp.key ∧
      twofactor.getIntCounter otp' = twofactor.getIntCounter twofactor.sampleTotp ∧
      otp'.digits = twofactor.sampleTotp.digits ∧
      otp'.issuer = twofactor.sampleTotp.issuer ∧
      otp'.account = twofactor.sampleTotp.account ∧
      otp'.stepSize = twofactor.sampleTotp.stepSize ∧
      otp'.clientOffset = twofactor.sampleTotp.clientOffset ∧
      otp'.totalVerificationFailures
        = twofactor.sampleTotp.totalVerificationFailures ∧
      twofactor.timeUnix otp'.lastVerificationTime
        = twofactor.timeUnix twofactor.sampleTotp.lastVerificationTime ∧
      otp'.hashFunction = twofactor.sampleTotp.hashFunction :=
  c1_serialization_roundtrip twofactor.sealFix twofactor.opnFix
    twofactor.nonceFix twofactor.sampleTotp
    (by decide) (fun m => rfl) (fun m => le_refl _)
    (by decide) sampleTotp_counter_bytes (by decide) (by decide) (by decide)
    (by decide) (by decide) (by decide) (by decide) (by decide) (by decide)
    (by decide) (by decide) (by decide)
